import Mathlib

/-!
Verification development for the presentation-generation pipeline
(`src-backend`): URL normalization and source ranking
(`mcp_server/helper/source_validator.py`), the orchestration workflow
(`mcp_server/workflow.py`), the writer/planner schemas, and the
presentation-id helper (`app/routes/presentation/utils.py`).

The validator code delegates URL parsing to the Python standard library
(`urllib.parse.urlparse` / `urlunparse`), so the relevant subset of the
CPython 3.11+ implementation of those functions is embedded here as well:
`urlsplit` lstrips C0-control-or-space characters, removes tab, carriage
return and newline everywhere, detects and lowercases the scheme, splits
the netloc after a leading double slash (raising ValueError for malformed
bracketed hosts), then splits the fragment at the first number sign and
the query at the first question mark; `urlparse` additionally splits the
params from the last path segment at a semicolon.

Machine floats are modelled as exact rationals; the built-in Python
round-to-two-decimals (bankers rounding, half to even) is modelled
exactly on rationals.
-/

namespace PptGen

/-! ## Generic character and list helpers -/

/-- C0 control characters and space, the set lstripped from a URL by the
CPython `urlsplit` (`_WHATWG_C0_CONTROL_OR_SPACE`). -/
def isC0OrSpace (c : Char) : Bool := c.toNat ≤ 32

/-- Tab, carriage return, newline: removed everywhere in a URL by the
CPython `urlsplit` (`_UNSAFE_URL_BYTES_TO_REMOVE`). -/
def isUnsafeByte (c : Char) : Bool := c = '\t' || c = '\r' || c = '\n'

/-- Characters allowed after the first character of a URL scheme
(`scheme_chars` in the CPython source: ASCII letters, digits, plus,
minus, dot). -/
def isSchemeChar (c : Char) : Bool := c.isAlphanum || c = '+' || c = '-' || c = '.'

/-- Characters that terminate the netloc portion of a URL
(`_splitnetloc` stops at the first of these). -/
def isNetlocEnd (c : Char) : Bool := c = '/' || c = '?' || c = '#'

/-- Split a character list at the first character satisfying `p`:
returns the part strictly before and the part strictly after it, or
`none` when no character satisfies `p`. -/
def splitAtFirst (p : Char → Bool) : List Char → Option (List Char × List Char)
  | [] => none
  | c :: cs =>
    if p c then some ([], cs) else
      match splitAtFirst p cs with
      | none => none
      | some (a, b) => some (c :: a, b)

/-- Split at the first occurrence of `sep`, defaulting to `(l, [])` when
`sep` does not occur (the behaviour of the Python idiom
`l.split(sep, 1)` guarded by `sep in l`). -/
def splitAtFirstD (sep : Char) (l : List Char) : List Char × List Char :=
  match splitAtFirst (fun c => c = sep) l with
  | none => (l, [])
  | some (a, b) => (a, b)

/-- Everything strictly before the first occurrence of `sep`
(the whole list when `sep` is absent), as in `s.partition(sep)[0]`. -/
def beforeFirstChar (sep : Char) (l : List Char) : List Char :=
  (splitAtFirstD sep l).1

/-- Everything strictly after the first occurrence of `sep` (empty when
`sep` is absent), as in `s.partition(sep)[2]`. -/
def afterFirstChar (sep : Char) (l : List Char) : List Char :=
  match splitAtFirst (fun c => c = sep) l with
  | none => []
  | some (_, b) => b

/-- Split a character list on every occurrence of `sep`, as in the
Python `s.split(sep)`: always returns at least one (possibly empty)
piece. -/
def splitOnChar (sep : Char) : List Char → List (List Char)
  | [] => [[]]
  | c :: cs =>
    if c = sep then [] :: splitOnChar sep cs
    else
      match splitOnChar sep cs with
      | [] => [[c]]
      | h :: t => (c :: h) :: t

/-! ## Model of the bracketed-host validation of `urllib.parse`

The CPython `urlsplit` raises `ValueError("Invalid IPv6 URL")` when the
netloc contains an opening bracket without a closing one or vice versa,
and otherwise validates the text between the brackets with
`_check_bracketed_host`: an IPvFuture literal must match
`v[hexdigits]+\.` followed by at least one character, anything else must
be accepted by `ipaddress.ip_address` as an IPv6 address (an IPv4
address in brackets is rejected).  The IPv6 textual grammar below
follows `IPv6Address._ip_int_from_string`: split on colons, expand an
embedded dotted-quad IPv4 tail into two extra hextets, allow at most one
empty interior group (the double colon), bound the group count, and
require every non-empty group to be one to four hex digits. -/

/-- ASCII hexadecimal digit. -/
def isHexDigit (c : Char) : Bool :=
  c.isDigit || ('a' ≤ c && c ≤ 'f') || ('A' ≤ c && c ≤ 'F')

/-- One to four hex digits (`_parse_hextet`). -/
def isHextet (s : List Char) : Bool :=
  !s.isEmpty && s.length ≤ 4 && s.all isHexDigit

/-- Decimal value of a digit string. -/
def digitsVal (s : List Char) : Nat :=
  s.foldl (fun n c => n * 10 + (c.toNat - 48)) 0

/-- One octet of a dotted-quad IPv4 address (`IPv4Address._parse_octet`):
one to three ASCII digits, no leading zero, value at most 255. -/
def isIPv4Octet (s : List Char) : Bool :=
  !s.isEmpty && s.length ≤ 3 && s.all Char.isDigit &&
    (s.length = 1 || s.headD '0' ≠ '0') && digitsVal s ≤ 255

/-- Dotted-quad IPv4 address text. -/
def isIPv4Text (s : List Char) : Bool :=
  match splitOnChar '.' s with
  | [a, b, c, d] => isIPv4Octet a && isIPv4Octet b && isIPv4Octet c && isIPv4Octet d
  | _ => false

/-- Replace a dotted-quad IPv4 tail group by two synthetic hextet
groups, failing when the tail is present but invalid
(`IPv6Address._ip_int_from_string`, the `'.' in parts[-1]` case). -/
def ipv6ExpandV4 (parts : List (List Char)) : Option (List (List Char)) :=
  match parts.getLast? with
  | none => none
  | some lastPart =>
    if '.' ∈ lastPart then
      if isIPv4Text lastPart then some (parts.dropLast ++ [['0'], ['0']]) else none
    else some parts

/-- The double-colon bookkeeping of `IPv6Address._ip_int_from_string`
when exactly one empty interior group was found at position `skipIdx`
of `parts`. -/
def ipv6SkipOk (parts : List (List Char)) (skipIdx : Nat) : Bool :=
  let n := parts.length
  let headEmpty := (parts.headD ['x']).isEmpty
  let lastEmpty := (parts.getLastD ['x']).isEmpty
  (!headEmpty || skipIdx = 1) &&
  (!lastEmpty || n - skipIdx - 1 = 1) &&
  ((if headEmpty then skipIdx - 1 else skipIdx) +
     (if lastEmpty then n - skipIdx - 2 else n - skipIdx - 1) ≤ 7)

/-- Acceptance of IPv6 address text (without a scope id) by
`IPv6Address._ip_int_from_string`. -/
def isIPv6Addr (addr : List Char) : Bool :=
  let parts0 := splitOnChar ':' addr
  if parts0.length < 3 then false else
  match ipv6ExpandV4 parts0 with
  | none => false
  | some parts =>
    parts.length ≤ 9 &&
    parts.all (fun p => p.isEmpty || isHextet p) &&
    (let interior := (parts.drop 1).dropLast
     let empties := interior.countP (fun p => p.isEmpty)
     if empties = 0 then
       parts.length = 8 && !(parts.headD []).isEmpty && !(parts.getLastD []).isEmpty
     else
       empties = 1 && ipv6SkipOk parts (1 + interior.findIdx (fun p => p.isEmpty)))

/-- Acceptance of IPv6 address text with an optional percent-separated
scope id (`IPv6Address._split_scope_id`). -/
def isIPv6Text (full : List Char) : Bool :=
  if '%' ∈ full then
    let scope := afterFirstChar '%' full
    !scope.isEmpty && '%' ∉ scope && isIPv6Addr (beforeFirstChar '%' full)
  else isIPv6Addr full

/-- The `_check_bracketed_host` validation: an IPvFuture literal
(`v` then hex digits then a dot then at least one character) or a valid
IPv6 address; a bracketed IPv4 address is rejected because `isIPv6Text`
rejects it (it has fewer than three colon groups). -/
def checkBracketedHost (host : List Char) : Bool :=
  match host with
  | 'v' :: rest =>
    let hexRun := rest.takeWhile isHexDigit
    (!hexRun.isEmpty) &&
      (match rest.dropWhile isHexDigit with
       | '.' :: t => !t.isEmpty
       | _ => false)
  | _ => isIPv6Text host

/-- The text between the first opening bracket and the following first
closing bracket of a netloc
(`netloc.partition('[')[2].partition(']')[0]`). -/
def bracketedHost (netloc : List Char) : List Char :=
  beforeFirstChar ']' (afterFirstChar '[' netloc)

/-- The ValueError raised by the CPython `urlsplit` for a given netloc,
if any: mismatched brackets give `Invalid IPv6 URL`; matched brackets
whose content fails `_check_bracketed_host` give an invalid-host error. -/
def netlocError (netloc : List Char) : Option String :=
  if ('[' ∈ netloc ∧ ']' ∉ netloc) ∨ (']' ∈ netloc ∧ '[' ∉ netloc) then
    some "Invalid IPv6 URL"
  else if '[' ∈ netloc ∧ ']' ∈ netloc then
    if checkBracketedHost (bracketedHost netloc) then none
    else some "invalid bracketed host"
  else none

/-! ## Model of `urllib.parse.urlparse` -/

/-- The six components of a parsed URL, as in the Python `ParseResult`. -/
structure ParseResult where
  scheme : List Char
  netloc : List Char
  path : List Char
  params : List Char
  query : List Char
  fragment : List Char
deriving Repr, DecidableEq

/-- Scheme detection of `urlsplit`: the text before the first colon
must be nonempty, start with an ASCII letter and continue with scheme
characters; it is lowercased.  Returns the (possibly empty) scheme and
the remaining URL. -/
def splitColonScheme (l : List Char) : List Char × List Char :=
  match splitAtFirst (fun c => c = ':') l with
  | none => ([], l)
  | some ([], _) => ([], l)
  | some (c :: r, rest) =>
    if c.isAlpha && r.all isSchemeChar then ((c :: r).map Char.toLower, rest)
    else ([], l)

/-- Netloc extraction of `urlsplit`: when the remaining URL starts with
a double slash, the netloc runs to the first slash, question mark or
number sign. -/
def splitNetlocPart (l : List Char) : List Char × List Char :=
  if l.take 2 = ['/', '/'] then
    ((l.drop 2).takeWhile (fun c => !isNetlocEnd c),
     (l.drop 2).dropWhile (fun c => !isNetlocEnd c))
  else ([], l)

/-- The `_splitparams` helper of `urlparse`: split the params from the
last path segment at the first semicolon occurring at or after the last
slash. -/
def splitParamsPart (p : List Char) : List Char × List Char :=
  if '/' ∈ p then
    let rpost := p.reverse.takeWhile (fun c => c ≠ '/')
    let pre := (p.reverse.dropWhile (fun c => c ≠ '/')).reverse
    if ';' ∈ rpost.reverse then
      (pre ++ beforeFirstChar ';' rpost.reverse, afterFirstChar ';' rpost.reverse)
    else (p, [])
  else (beforeFirstChar ';' p, afterFirstChar ';' p)

/-- The strip-and-remove preprocessing of `urlsplit`: lstrip C0 control
characters and spaces, then remove every tab, carriage return and
newline. -/
def stripUrl (url : List Char) : List Char :=
  (url.dropWhile isC0OrSpace).filter (fun c => !isUnsafeByte c)

/-- The pure component splitting of `urlparse` (scheme, netloc, path,
params, query, fragment), without the bracketed-host error check. -/
def rawUrlparse (url : List Char) : ParseResult :=
  let u := stripUrl url
  let sr := splitColonScheme u
  let nr := splitNetlocPart sr.2
  let bf := splitAtFirstD '#' nr.2
  let pq := splitAtFirstD '?' bf.1
  let pp := splitParamsPart pq.1
  ⟨sr.1, nr.1, pp.1, pp.2, pq.2, bf.2⟩

/-- Model of `urllib.parse.urlparse`: the component split, raising the
`urlsplit` ValueError for a malformed bracketed host.  The additional
non-ASCII NFKC netloc check of `_checknetloc` (which can only fire on
certain non-ASCII netlocs) is not modelled. -/
def pyUrlparse (url : List Char) : Except String ParseResult :=
  let r := rawUrlparse url
  match netlocError r.netloc with
  | some e => Except.error e
  | none => Except.ok r

/-- The `uses_netloc` scheme list of `urllib.parse` (the empty string
entry is irrelevant to `urlunsplit`, which tests the scheme for
truthiness first, but is kept for fidelity). -/
def usesNetloc : List (List Char) :=
  ["", "ftp", "http", "gopher", "nntp", "telnet", "imap", "wais", "file", "mms",
   "https", "shttp", "snews", "prospero", "rtsp", "rtspu", "rsync", "svn",
   "svn+ssh", "sftp", "nfs", "git", "git+ssh", "ws", "wss"].map String.toList

/-- Model of `urllib.parse.urlunparse` as called by `normalize_url`,
with empty params, query and fragment (CPython 3.11 `urlunsplit`): the
double slash is emitted when the netloc is nonempty, or when the scheme
is a `uses_netloc` scheme and the path does not already begin with a
double slash. -/
def urlunsplitBase (scheme netloc path : List Char) : List Char :=
  let url :=
    if netloc ≠ [] ∨ (scheme ≠ [] ∧ scheme ∈ usesNetloc ∧ path.take 2 ≠ ['/', '/']) then
      '/' :: '/' :: (netloc ++ (if path ≠ [] ∧ path.take 1 ≠ ['/'] then '/' :: path else path))
    else path
  if scheme ≠ [] then scheme ++ ':' :: url else url

/-! ## `SourceValidator.normalize_url` -/

/-- `SourceValidator.normalize_url`: parse the URL and reassemble it
from scheme, netloc and path only, dropping params, query and fragment.
The parse step can raise ValueError (malformed bracketed host), and
`normalize_url` does not catch it, so the model is `Except`-valued. -/
def normalize_url (url : String) : Except String String :=
  match pyUrlparse url.toList with
  | Except.error e => Except.error e
  | Except.ok p => Except.ok (String.mk (urlunsplitBase p.scheme p.netloc p.path))

/-! ## Rounding: the Python builtin `round(x, 2)`

Python rounds to the nearest representable value with ties going to the
even digit.  Floats are modelled as exact rationals, so rounding to two
decimal places is the exact round-half-even on rationals. -/

/-- Computable floor of a rational (matches `Rat.floor`): numerator
divided by denominator with Euclidean division, which is floor division
for a positive denominator. -/
def ratFloor (q : ℚ) : ℤ := q.num / (q.den : ℤ)

/-- Round a rational to the nearest integer, ties to even. -/
def pyRoundHalfEven (q : ℚ) : ℤ :=
  if q - ratFloor q < 1/2 then ratFloor q
  else if 1/2 < q - ratFloor q then ratFloor q + 1
  else if ratFloor q % 2 = 0 then ratFloor q else ratFloor q + 1

/-- The Python `round(x, 2)`: round to two decimal places, half to
even. -/
def pyRound2 (q : ℚ) : ℚ := (pyRoundHalfEven (q * 100) : ℚ) / 100

/-! ## `SourceValidator.validate_url` and `rank_sources`

The network fetch (`requests.get`) and the subsequent HTML parse and
metadata extraction (`BeautifulSoup` + `get_metadata`) are the two
side-effecting, fallible operations inside the `try` block of
`validate_url`; they are modelled by an oracle mapping the cleaned URL
to an outcome.  Python truthiness of the extracted author/date strings
is modelled explicitly (an empty string is falsy). -/

/-- Credibility signals extracted by `get_metadata`. -/
structure PageMeta where
  author : Option String
  date : Option String
  has_references : Bool
deriving Repr, DecidableEq

/-- Result of the body handling after a response arrived: either the
HTML parse and metadata extraction succeed, or they raise. -/
inductive PageOutcome where
  | parsed (meta : PageMeta)
  | parseFailure (msg : String)
deriving Repr, DecidableEq

/-- Outcome of `requests.get` on the cleaned URL: either a response
with a status code and a body outcome, or a raised request exception. -/
inductive FetchOutcome where
  | response (status_code : Nat) (body : PageOutcome)
  | failure (msg : String)
deriving Repr, DecidableEq

/-- Python truthiness of an optional string (`if meta["author"]:`).  -/
def pyTruthy (s : Option String) : Bool :=
  match s with
  | none => false
  | some v => v ≠ ""

/-- The `details` dict of a validation result: the metadata when the
live branch reached it, and the error message when one was recorded. -/
structure ValidationDetails where
  meta : Option PageMeta
  error : Option String
deriving Repr, DecidableEq

/-- The dict returned by `validate_url`. -/
structure ValidationResult where
  url : String
  status : String
  score : ℚ
  tier : String
  details : ValidationDetails
deriving Repr, DecidableEq

/-- Does the netloc end with `.edu` or `.gov`
(`domain.endswith((".edu", ".gov"))`)? -/
def isEduGov (domain : List Char) : Bool :=
  List.isSuffixOf ".edu".toList domain || List.isSuffixOf ".gov".toList domain

/-- The tier assigned from a clamped score by `validate_url`. -/
def tierOf (score : ℚ) : String :=
  if 80 ≤ score then "S" else if 60 ≤ score then "A" else "B"

/-- The three score bonuses of `validate_url`: author present (+10),
date present (+5), netloc ending in `.edu` or `.gov` (+15). -/
def scoreBonus (meta : PageMeta) (clean_url : String) : ℚ :=
  (if pyTruthy meta.author then (10 : ℚ) else 0) +
  (if pyTruthy meta.date then (5 : ℚ) else 0) +
  (if isEduGov (rawUrlparse clean_url.toList).netloc then (15 : ℚ) else 0)

/-- `SourceValidator.validate_url`.  The URL is normalized before the
`try` block, so a parse ValueError propagates (`Except.error`).  Inside
the `try`: a non-200 status or a fetch exception leaves the initial
dead/C/0 result (with an error message in the details); a parse failure
after a 200 response leaves score 0 and tier C but the status has
already been set to `live`; otherwise the hybrid score is computed from
the confidence and the signals, rounded to two decimals, clamped above
at 100, and converted to a tier. -/
def validate_url (fetch : String → FetchOutcome) (url : String)
    (tavily_confidence : ℚ) : Except String ValidationResult :=
  match normalize_url url with
  | Except.error e => Except.error e
  | Except.ok clean_url =>
    let base_points := tavily_confidence * 100
    let dead : ValidationResult :=
      { url := clean_url, status := "dead", score := 0, tier := "C",
        details := { meta := none, error := none } }
    Except.ok
      (match fetch clean_url with
       | FetchOutcome.failure e =>
         { dead with details := { meta := none, error := some e } }
       | FetchOutcome.response code body =>
         if code ≠ 200 then
           { dead with details := { meta := none, error := some ("Status " ++ toString code) } }
         else
           match body with
           | PageOutcome.parseFailure e =>
             { dead with status := "live",
                         details := { meta := none, error := some e } }
           | PageOutcome.parsed meta =>
             let score := min (pyRound2 (base_points + scoreBonus meta clean_url)) 100
             { url := clean_url, status := "live", score := score,
               tier := tierOf score,
               details := { meta := some meta, error := none } })

/-- A raw source record handed to `rank_sources`: the `url` and `score`
keys may be absent (`item.get` with defaults). -/
structure RawSource where
  url : Option String
  score : Option ℚ
deriving Repr, DecidableEq

/-- A record augmented with its validation result. -/
structure RankedSource where
  item : RawSource
  validation : ValidationResult
deriving Repr, DecidableEq

/-- The validation loop of `rank_sources`: validate every record in
input order, keeping all original keys and adding the validation
result; an uncaught exception from `validate_url` (the URL-parse
ValueError raised before its `try` block) aborts the whole loop. -/
def augmentSources (fetch : String → FetchOutcome) (raw_results : List RawSource) :
    Except String (List RankedSource) :=
  raw_results.mapM (fun item => do
    let validation ← validate_url fetch (item.url.getD "") (item.score.getD (1/2))
    pure { item := item, validation := validation : RankedSource })

/-- The comparison used to model the Python
`sorted(ranked_results, key=lambda x: x["validation"]["score"],
reverse=True)`: the left element goes first when its score is at least
the score of the right element; Python `sorted` is stable, as is
`List.mergeSort`, so records with equal scores keep input order. -/
def byScoreDesc (a b : RankedSource) : Bool :=
  b.validation.score ≤ a.validation.score

/-- `SourceValidator.rank_sources`: validate every record in input
order, then sort descending by validation score (stable). -/
def rank_sources (fetch : String → FetchOutcome) (raw_results : List RawSource) :
    Except String (List RankedSource) := do
  let ranked ← augmentSources fetch raw_results
  pure (ranked.mergeSort byScoreDesc)

/-! ## Writer response schemas (`mcp_server/agents/writer/schemas.py`)

These mirror the pydantic models exactly: `SlideContent` has only
`title`, `points` and `speaker_notes`; the single optional
`visual_request` field lives on `PresentationContent`, the whole-deck
model. -/

/-- `SlideContent` from `writer/schemas.py`. -/
structure SlideContent where
  title : String
  points : List String
  speaker_notes : Option String
deriving Repr, DecidableEq

/-- `VisualRequest` from `writer/schemas.py`: the chart data is a JSON
string field. -/
structure VisualRequest where
  type : String
  prompt : String
  data_json : Option String
deriving Repr, DecidableEq

/-- `PresentationContent` from `writer/schemas.py`. -/
structure PresentationContent where
  filename_suggestion : String
  slides : List SlideContent
  visual_request : Option VisualRequest := none
deriving Repr, DecidableEq

/-- The visual requests representable in a `PresentationContent` value:
the content of its single deck-level optional field. -/
def deckLevelVisualRequests (pc : PresentationContent) : List VisualRequest :=
  pc.visual_request.toList

/-! ## Planner schema (`mcp_server/agents/planner/schemas.py`) -/

/-- `SlidePlan` from `planner/schemas.py`: one outline entry. -/
structure SlidePlan where
  slide_number : Int
  title : String
  search_queries : List String
  content_goal : String
deriving Repr, DecidableEq

/-! ## Research stage (`workflow.py` step 2)

The loop over `plan.slides` in `run_ppt_workflow` is in src; the body
of `ResearcherAgent.research_web` is not (only its callers are), so the
per-entry behaviour is modelled from the spec. -/

/-- Outcome of the web lookup issued through the tool session for one
outline entry. -/
inductive LookupOutcome where
  | ok (ranked_sources : List RankedSource)
  | toolError (msg : String)
deriving Repr

/-- The per-slide research summary (spec data model: slide title plus
ranked source list). -/
structure ResearchSummary where
  slide_title : String
  ranked_sources : List RankedSource
deriving Repr

/-- Modelled from the spec: `ResearcherAgent.research_web` (the
researcher agent implementation under
`mcp_server/agents/researcher/` is not among the provided sources).
Spec 4.4: a lookup failure for one entry must not prevent processing of
subsequent entries — degrade to an empty ranked list for that slide and
continue. -/
def research_web (slide_title : String) (outcome : LookupOutcome) : ResearchSummary :=
  match outcome with
  | LookupOutcome.ok srcs => { slide_title := slide_title, ranked_sources := srcs }
  | LookupOutcome.toolError _ => { slide_title := slide_title, ranked_sources := [] }

/-- The research loop of `run_ppt_workflow` (workflow.py lines 66-75):
iterate over the outline entries in order, appending one summary per
entry.  The lookup outcome for each entry is supplied by an oracle. -/
def researchStage (lookup : SlidePlan → LookupOutcome) (slides : List SlidePlan) :
    List ResearchSummary :=
  slides.map (fun slide => research_web slide.title (lookup slide))

/-! ## Drafting stage chart constraint

Modelled from the spec: the `WriterAgent` implementation (its
`agent.py`) is not among the provided sources, only its prompts and
response schemas are.  Spec 4.5: the stage calls the
structured-completion collaborator once for the whole deck, producing
one slide content per outline entry with zero-or-more visual requests
attached to individual slides; the post-condition enforced by the stage
itself (not the collaborator) is that at least one attached
VisualRequest across the whole deck is of type chart with well-formed
data, where chart data `labels`/`values` are well-formed when the two
sequences have equal length; a violating deck fails the run with
`DraftingConstraintViolation`.  Chart data is modelled structurally
(the parsed form of the `data_json` payload). -/

/-- Modelled from the spec: structured chart data
`labels`/`values`. -/
structure ChartData where
  labels : List String
  values : List ℚ
deriving Repr

/-- Modelled from the spec: a visual request whose chart data is
structured. -/
structure SpecVisualRequest where
  type : String
  prompt : String
  data : Option ChartData
deriving Repr

/-- Modelled from the spec: a drafted slide carrying its own optional
visual request (spec data model for `SlideContent`). -/
structure SpecSlideContent where
  title : String
  points : List String
  speaker_notes : Option String
  visual_request : Option SpecVisualRequest
deriving Repr

/-- Modelled from the spec: the whole-deck output of the drafting
collaborator. -/
structure SpecDeck where
  filename_suggestion : String
  slides : List SpecSlideContent
deriving Repr

/-- A chart-type visual request with well-formed data: type `chart` and
labels/values of equal length. -/
def isWellFormedChart (v : SpecVisualRequest) : Bool :=
  v.type = "chart" &&
    (match v.data with
     | some d => d.labels.length = d.values.length
     | none => false)

/-- Whether a drafted slide carries a well-formed chart request. -/
def slideHasChart (s : SpecSlideContent) : Bool :=
  match s.visual_request with
  | some v => isWellFormedChart v
  | none => false

/-- Number of well-formed chart-type visual requests attached across
the whole deck. -/
def deckChartCount (deck : SpecDeck) : Nat :=
  deck.slides.countP slideHasChart

/-- Modelled from the spec: the post-hoc constraint check of the
drafting stage, applied to whatever deck the completion collaborator
returned (the check itself is the enforcement; nothing relies on the
collaborator honouring the prompt instructions). -/
def draftingStage (collaboratorOutput : SpecDeck) : Except String SpecDeck :=
  if deckChartCount collaboratorOutput = 0 then
    Except.error "DraftingConstraintViolation"
  else Except.ok collaboratorOutput

/-! ## Assembly reconciliation (`workflow.py` step 5) -/

/-- A generated asset returned by the illustrator: slide index and file
path (`GeneratedAsset`). -/
structure GeneratedAsset where
  slide_number : Nat
  file_path : String
deriving Repr, DecidableEq

/-- One entry of `final_slides_payload`. -/
structure FinalSlidePayload where
  title : String
  points : List String
  image : Option String
deriving Repr, DecidableEq

/-- The assembly loop of `run_ppt_workflow` (workflow.py lines
108-123): for each drafted slide, in order, emit a payload whose image
is the file path of the first generated asset whose slide number equals
the slide position, or nothing when no asset matches. -/
def buildFinalSlides (slides : List SlideContent) (assets : List GeneratedAsset) :
    List FinalSlidePayload :=
  slides.enum.map (fun p =>
    { title := p.2.title, points := p.2.points,
      image := (assets.find? (fun a => a.slide_number = p.1)).map GeneratedAsset.file_path })

/-! ## Presentation id (`app/routes/presentation/utils.py`) -/

/-- A character kept by the sanitizing regex `[^a-zA-Z0-9_\-]` (ASCII
letters, digits, underscore, hyphen). -/
def isIdChar (c : Char) : Bool := c.isAlphanum || c = '_' || c = '-'

/-- `generate_pprt_id`: replace every space of the topic by an
underscore, delete every character outside letters, digits, underscore
and hyphen, then append a hyphen and the freshly drawn UUID (the UUID
string is a parameter of the model; `uuid.uuid4()` renders as lowercase
hexadecimal digits and hyphens). -/
def generate_pprt_id (topic : String) (uuid : String) : String :=
  String.mk
    (((topic.toList.map (fun c => if c = ' ' then '_' else c)).filter isIdChar) ++
      '-' :: uuid.toList)

/-- The characters a canonical `uuid.uuid4()` rendering consists of:
lowercase hexadecimal digits and hyphens. -/
def isUuidChar (c : Char) : Bool :=
  c.isDigit || ('a' ≤ c && c ≤ 'f') || c = '-'

/-- The score formula exactly as the spec words it (the refinement
reference for claim C3): base `confidence * 100`, plus 10 for an author
signal, plus 5 for a date signal, plus 15 for a trusted suffix, the
final value clamped to the interval from 0 to 100 — with no rounding
step. -/
def specScore (conf : ℚ) (author date edugov : Bool) : ℚ :=
  min (max (conf * 100 +
    ((if author then (10 : ℚ) else 0) + (if date then (5 : ℚ) else 0) +
      (if edugov then (15 : ℚ) else 0))) 0) 100

/-! ## Concrete sample data used by the witnesses below -/

/-- A two-entry outline. -/
def sampleSlides : List SlidePlan :=
  [⟨0, "A", ["qa"], "ga"⟩, ⟨1, "B", ["qb"], "gb"⟩]

/-- A lookup oracle whose first entry fails with a tool-session
error. -/
def sampleLookup (s : SlidePlan) : LookupOutcome :=
  if s.title = "A" then LookupOutcome.toolError "boom" else LookupOutcome.ok []

/-! ## Helper lemmas -/

theorem safeChar_of_idChar (c : Char) (h : isIdChar c = true) :
    c ≠ '/' ∧ c ≠ '\\' ∧ Char.isWhitespace c = false ∧ c ≠ '.' := by
  refine ⟨?_, ?_, ?_, ?_⟩
  · intro hc; subst hc; exact absurd h (by decide)
  · intro hc; subst hc; exact absurd h (by decide)
  · cases hw : Char.isWhitespace c with
    | false => rfl
    | true =>
      exfalso
      simp only [Char.isWhitespace, Bool.or_eq_true, decide_eq_true_eq] at hw
      rcases hw with ((hc | hc) | hc) | hc <;> (subst hc; exact absurd h (by decide))
  · intro hc; subst hc; exact absurd h (by decide)

theorem idChar_of_uuidChar (c : Char) (h : isUuidChar c = true) : isIdChar c = true := by
  simp only [isUuidChar, Bool.or_eq_true, Bool.and_eq_true, decide_eq_true_eq] at h
  rcases h with (hd | ⟨h1, h2⟩) | hc
  · simp [isIdChar, Char.isAlphanum, hd]
  · have : Char.isLower c = true := by
      simp only [Char.isLower, Bool.and_eq_true, decide_eq_true_eq]
      constructor
      · exact h1
      · exact le_trans h2 (show ('f' : Char) ≤ 'z' by decide)
    simp [isIdChar, Char.isAlphanum, Char.isAlpha, this]
  · subst hc; decide


end PptGen

namespace PptGen

/-! ## Claim theorems -/

/-- Claim C9: the claim says every `SlideContent` produced by the
drafting stage carries its own optional `VisualRequest`, so that the
illustration step can read a per-slide visual request from each slide.
The schema in `writer/schemas.py` contradicts this: `SlideContent` has
no visual-request field at all, and the only visual request a
`PresentationContent` value can carry is the single deck-level optional
field, so at most one visual request is representable for the whole
deck — while `workflow.py` (step 4) reads `slide.visual_request` from
every slide, an attribute the schema does not define.  This theorem
records the representable bound that contradicts the per-slide
reading. -/
theorem c9_slide_visual_request_not_representable (pc : PresentationContent) :
    (deckLevelVisualRequests pc).length ≤ 1 := by
  cases h : pc.visual_request <;>
    simp [deckLevelVisualRequests, h]

/-- Claim C1: the drafting stage enforces the chart constraint itself,
post hoc, over the whole deck returned by the completion collaborator:
it fails the run with `DraftingConstraintViolation` exactly when zero
attached visual requests are chart-typed with well-formed (equal
length labels/values) data, and succeeds exactly when at least one such
request is attached.  (The stage is modelled from the spec; see
`draftingStage`.) -/
theorem c1_drafting_chart_constraint (deck : SpecDeck) :
    (draftingStage deck = Except.error "DraftingConstraintViolation" ↔
      deckChartCount deck = 0) ∧
    (draftingStage deck = Except.ok deck ↔ 1 ≤ deckChartCount deck) := by
  constructor
  · constructor
    · intro h
      by_contra hne
      simp only [draftingStage, if_neg hne] at h
      exact Except.noConfusion h
    · intro h
      simp [draftingStage, h]
  · constructor
    · intro h
      by_contra hlt
      have hz : deckChartCount deck = 0 := by omega
      simp only [draftingStage, if_pos hz] at h
      exact Except.noConfusion h
    · intro h
      have hz : deckChartCount deck ≠ 0 := by omega
      simp [draftingStage, hz]

/-- Claim C2: in a pipeline run over any outline, if the research
lookup for entry `k` raises a tool-session error, the research loop
still produces exactly one `ResearchSummary` per outline entry, in
outline order, each summary depending only on its own entry and its own
lookup outcome (so entries other than `k` are unaffected), and entry
`k` degrades to an empty ranked source list; the loop is total (the run
does not abort). -/
theorem c2_research_isolation (slides : List SlidePlan)
    (lookup : SlidePlan → LookupOutcome) (k : Nat) (hk : k < slides.length)
    (msg : String)
    (hfail : lookup (slides.get ⟨k, hk⟩) = LookupOutcome.toolError msg) :
    (researchStage lookup slides).length = slides.length ∧
    (∀ (j : Nat) (hj : j < slides.length),
      (researchStage lookup slides).get ⟨j, by simpa [researchStage] using hj⟩ =
        research_web (slides.get ⟨j, hj⟩).title (lookup (slides.get ⟨j, hj⟩))) ∧
    ((researchStage lookup slides).get
        ⟨k, by simpa [researchStage] using hk⟩).ranked_sources = [] := by
  refine ⟨by simp [researchStage], ?_, ?_⟩
  · intro j hj
    simp [researchStage]
  · have hg : (researchStage lookup slides).get
        ⟨k, by simpa [researchStage] using hk⟩ =
        research_web (slides.get ⟨k, hk⟩).title (lookup (slides.get ⟨k, hk⟩)) := by
      simp [researchStage]
    rw [hg, hfail]
    rfl

/-- Witness for C2 at a concrete two-entry outline whose first lookup
fails. -/
theorem c2_research_isolation_witness :
    0 < sampleSlides.length ∧
    sampleLookup (sampleSlides.get ⟨0, by decide⟩) = LookupOutcome.toolError "boom" ∧
    (researchStage sampleLookup sampleSlides).length = sampleSlides.length ∧
    ((researchStage sampleLookup sampleSlides).get
        ⟨0, by simp [researchStage, sampleSlides]⟩).ranked_sources = [] :=
  ⟨by decide, by rfl,
   (c2_research_isolation sampleSlides sampleLookup 0 (by decide) "boom" (by rfl)).1,
   (c2_research_isolation sampleSlides sampleLookup 0 (by decide) "boom" (by rfl)).2.2⟩

/-- Claim C8: for every deck of drafted slides and every asset list,
the reconciler produces exactly one final payload per slide, in slide
(outline) order: payload `i` keeps the title and points of slide `i`,
carries the file path of a generated asset whose slide index equals `i`
when one exists, and carries no image path otherwise. -/
theorem c8_reconciler_left_join (slides : List SlideContent)
    (assets : List GeneratedAsset) (i : Nat) (hi : i < slides.length) :
    (buildFinalSlides slides assets).length = slides.length ∧
    ((buildFinalSlides slides assets).get
        ⟨i, by simpa [buildFinalSlides] using hi⟩).title =
      (slides.get ⟨i, hi⟩).title ∧
    ((buildFinalSlides slides assets).get
        ⟨i, by simpa [buildFinalSlides] using hi⟩).points =
      (slides.get ⟨i, hi⟩).points ∧
    ((∀ a ∈ assets, a.slide_number ≠ i) →
      ((buildFinalSlides slides assets).get
          ⟨i, by simpa [buildFinalSlides] using hi⟩).image = none) ∧
    ((∃ a ∈ assets, a.slide_number = i) →
      ∃ a ∈ assets, a.slide_number = i ∧
        ((buildFinalSlides slides assets).get
            ⟨i, by simpa [buildFinalSlides] using hi⟩).image = some a.file_path) := by
  have hget : (buildFinalSlides slides assets).get
      ⟨i, by simpa [buildFinalSlides] using hi⟩ =
      { title := (slides.get ⟨i, hi⟩).title,
        points := (slides.get ⟨i, hi⟩).points,
        image := (assets.find? (fun a => a.slide_number = i)).map
          GeneratedAsset.file_path } := by
    simp [buildFinalSlides]
  refine ⟨by simp [buildFinalSlides], by rw [hget], by rw [hget], ?_, ?_⟩
  · intro hnone
    rw [hget]
    have : assets.find? (fun a => a.slide_number = i) = none := by
      rw [List.find?_eq_none]
      intro a ha
      simpa using hnone a ha
    simp [this]
  · intro hex
    cases hfind : assets.find? (fun a => a.slide_number = i) with
    | none =>
      exfalso
      rcases hex with ⟨a, ha, hai⟩
      have := (List.find?_eq_none.mp hfind) a ha
      simp [hai] at this
    | some b =>
      refine ⟨b, List.mem_of_find?_eq_some hfind, ?_, ?_⟩
      · have := List.find?_some hfind
        simpa using this
      · rw [hget, hfind]
        rfl

/-- Witness for C8: a three-slide deck in which only the middle slide
received a generated asset. -/
theorem c8_reconciler_left_join_witness :
    1 < ([⟨"a", ["p"], none⟩, ⟨"b", ["q"], none⟩, ⟨"c", ["r"], none⟩] :
        List SlideContent).length ∧
    ((buildFinalSlides [⟨"a", ["p"], none⟩, ⟨"b", ["q"], none⟩, ⟨"c", ["r"], none⟩]
        [⟨1, "chart.png"⟩]).length = 3 ∧
      ((buildFinalSlides [⟨"a", ["p"], none⟩, ⟨"b", ["q"], none⟩, ⟨"c", ["r"], none⟩]
          [⟨1, "chart.png"⟩]).get ⟨1, by decide⟩).title = "b" ∧
      ((buildFinalSlides [⟨"a", ["p"], none⟩, ⟨"b", ["q"], none⟩, ⟨"c", ["r"], none⟩]
          [⟨1, "chart.png"⟩]).get ⟨1, by decide⟩).image = some "chart.png") := by
  have h := c8_reconciler_left_join
    [⟨"a", ["p"], none⟩, ⟨"b", ["q"], none⟩, ⟨"c", ["r"], none⟩]
    [⟨1, "chart.png"⟩] 1 (by decide)
  refine ⟨by decide, h.1, h.2.1, ?_⟩
  rcases h.2.2.2.2 ⟨⟨1, "chart.png"⟩, by decide, rfl⟩ with ⟨a, ha, hai, himg⟩
  have : a = ⟨1, "chart.png"⟩ := by
    rcases List.mem_singleton.mp ha with rfl
    rfl
  rw [this] at himg
  exact himg

/-- Claim C10: the generated presentation identifier is the topic with
spaces replaced by underscores and every character outside letters,
digits, underscore and hyphen removed, followed by a hyphen and the
UUID; consequently (for a canonical UUID rendering) it contains no path
separator, no whitespace and no dot, so the download path built from it
cannot escape the output directory. -/
theorem c10_pprt_id_safe (topic uuid : String)
    (huuid : ∀ c ∈ uuid.toList, isUuidChar c = true) :
    (generate_pprt_id topic uuid).toList =
      ((topic.toList.map (fun c => if c = ' ' then '_' else c)).filter isIdChar) ++
        '-' :: uuid.toList ∧
    ∀ c ∈ (generate_pprt_id topic uuid).toList,
      c ≠ '/' ∧ c ≠ '\\' ∧ Char.isWhitespace c = false ∧ c ≠ '.' := by
  constructor
  · rfl
  · intro c hc
    have hc' : c ∈ ((topic.toList.map (fun c => if c = ' ' then '_' else c)).filter
        isIdChar) ++ '-' :: uuid.toList := hc
    rcases List.mem_append.mp hc' with h | h
    · exact safeChar_of_idChar c (List.of_mem_filter h)
    · rcases List.mem_cons.mp h with rfl | h
      · exact ⟨by decide, by decide, by decide, by decide⟩
      · exact safeChar_of_idChar c (idChar_of_uuidChar c (huuid c h))

/-- Witness for C10 at a concrete topic and a concrete canonical
UUID. -/
theorem c10_pprt_id_safe_witness :
    (∀ c ∈ ("1f2a3b4c-0d0e-4f55-8a66-77b8c9d0e1f2" : String).toList,
        isUuidChar c = true) ∧
    ((generate_pprt_id "My Topic! (v2).." "1f2a3b4c-0d0e-4f55-8a66-77b8c9d0e1f2").toList =
      ((("My Topic! (v2).." : String).toList.map
          (fun c => if c = ' ' then '_' else c)).filter isIdChar) ++
        '-' :: ("1f2a3b4c-0d0e-4f55-8a66-77b8c9d0e1f2" : String).toList ∧
      ∀ c ∈ (generate_pprt_id "My Topic! (v2).."
          "1f2a3b4c-0d0e-4f55-8a66-77b8c9d0e1f2").toList,
        c ≠ '/' ∧ c ≠ '\\' ∧ Char.isWhitespace c = false ∧ c ≠ '.') :=
  ⟨by decide,
   c10_pprt_id_safe "My Topic! (v2).." "1f2a3b4c-0d0e-4f55-8a66-77b8c9d0e1f2"
     (by decide)⟩

/-! ## Rounding lemmas -/

theorem ratFloor_eq_floor (q : ℚ) : ratFloor q = ⌊q⌋ := by
  rw [Rat.floor_def]; rfl

theorem pyRoundHalfEven_cases (q : ℚ) :
    pyRoundHalfEven q = ⌊q⌋ ∨ pyRoundHalfEven q = ⌊q⌋ + 1 := by
  unfold pyRoundHalfEven
  rw [ratFloor_eq_floor]
  split_ifs <;> simp

theorem pyRoundHalfEven_bounds (q : ℚ) :
    q - 1/2 ≤ (pyRoundHalfEven q : ℚ) ∧ (pyRoundHalfEven q : ℚ) ≤ q + 1/2 := by
  have hfl : ((⌊q⌋ : ℤ) : ℚ) ≤ q := Int.floor_le q
  have hfu : q < ⌊q⌋ + 1 := Int.lt_floor_add_one q
  unfold pyRoundHalfEven
  rw [ratFloor_eq_floor]
  split_ifs with h1 h2 h3
  · constructor <;> push_cast <;> linarith
  · constructor <;> push_cast <;> linarith
  · constructor <;> push_cast <;> linarith
  · constructor <;> push_cast <;> linarith

theorem pyRoundHalfEven_mono {a b : ℚ} (h : a ≤ b) :
    pyRoundHalfEven a ≤ pyRoundHalfEven b := by
  by_cases hff : ⌊a⌋ < ⌊b⌋
  · have h1 : pyRoundHalfEven a ≤ ⌊a⌋ + 1 := by
      rcases pyRoundHalfEven_cases a with hc | hc <;> omega
    have h2 : ⌊b⌋ ≤ pyRoundHalfEven b := by
      rcases pyRoundHalfEven_cases b with hc | hc <;> omega
    omega
  · have hfe : ⌊a⌋ = ⌊b⌋ := le_antisymm (Int.floor_le_floor h) (by omega)
    have hab : a - ((⌊b⌋ : ℤ) : ℚ) ≤ b - ⌊b⌋ := by linarith
    unfold pyRoundHalfEven
    rw [ratFloor_eq_floor, ratFloor_eq_floor, hfe]
    split_ifs <;> first
      | omega
      | (exfalso; linarith)

theorem pyRoundHalfEven_strict {a b : ℚ} (h : a + 1 < b) :
    pyRoundHalfEven a < pyRoundHalfEven b := by
  have h1 := (pyRoundHalfEven_bounds a).2
  have h2 := (pyRoundHalfEven_bounds b).1
  have : ((pyRoundHalfEven a : ℤ) : ℚ) < ((pyRoundHalfEven b : ℤ) : ℚ) := by linarith
  exact_mod_cast this

theorem pyRoundHalfEven_zero : pyRoundHalfEven 0 = 0 := by
  unfold pyRoundHalfEven
  rw [ratFloor_eq_floor]
  norm_num

theorem pyRound2_mono {a b : ℚ} (h : a ≤ b) : pyRound2 a ≤ pyRound2 b := by
  unfold pyRound2
  have hm : pyRoundHalfEven (a * 100) ≤ pyRoundHalfEven (b * 100) :=
    pyRoundHalfEven_mono (by linarith)
  have hm' : ((pyRoundHalfEven (a * 100) : ℤ) : ℚ) ≤ pyRoundHalfEven (b * 100) := by
    exact_mod_cast hm
  linarith

theorem pyRound2_strict {a b : ℚ} (h : a + 1/100 < b) : pyRound2 a < pyRound2 b := by
  unfold pyRound2
  have hm : pyRoundHalfEven (a * 100) < pyRoundHalfEven (b * 100) :=
    pyRoundHalfEven_strict (by linarith)
  have hm' : ((pyRoundHalfEven (a * 100) : ℤ) : ℚ) < pyRoundHalfEven (b * 100) := by
    exact_mod_cast hm
  linarith

theorem pyRound2_nonneg {q : ℚ} (h : 0 ≤ q) : 0 ≤ pyRound2 q := by
  have h0 : pyRound2 0 = 0 := by
    unfold pyRound2
    rw [show (0 : ℚ) * 100 = 0 by ring, pyRoundHalfEven_zero]
    norm_num
  have := pyRound2_mono h
  rw [h0] at this
  exact this

/-! ## Branch equations for `validate_url` -/

theorem validate_url_fetchFailure (fetch : String → FetchOutcome)
    (url clean : String) (conf : ℚ) (msg : String)
    (hn : normalize_url url = Except.ok clean)
    (hf : fetch clean = FetchOutcome.failure msg) :
    validate_url fetch url conf = Except.ok
      { url := clean, status := "dead", score := 0, tier := "C",
        details := { meta := none, error := some msg } } := by
  simp only [validate_url, hn, hf]

theorem validate_url_non200 (fetch : String → FetchOutcome)
    (url clean : String) (conf : ℚ) (code : Nat) (body : PageOutcome)
    (hn : normalize_url url = Except.ok clean)
    (hf : fetch clean = FetchOutcome.response code body)
    (hcode : code ≠ 200) :
    validate_url fetch url conf = Except.ok
      { url := clean, status := "dead", score := 0, tier := "C",
        details := { meta := none, error := some ("Status " ++ toString code) } } := by
  simp only [validate_url, hn, hf, if_pos hcode]

theorem validate_url_parseFailure (fetch : String → FetchOutcome)
    (url clean : String) (conf : ℚ) (msg : String)
    (hn : normalize_url url = Except.ok clean)
    (hf : fetch clean = FetchOutcome.response 200 (PageOutcome.parseFailure msg)) :
    validate_url fetch url conf = Except.ok
      { url := clean, status := "live", score := 0, tier := "C",
        details := { meta := none, error := some msg } } := by
  simp only [validate_url, hn, hf]
  norm_num

theorem validate_url_live (fetch : String → FetchOutcome)
    (url clean : String) (conf : ℚ) (meta : PageMeta)
    (hn : normalize_url url = Except.ok clean)
    (hf : fetch clean = FetchOutcome.response 200 (PageOutcome.parsed meta)) :
    validate_url fetch url conf = Except.ok
      { url := clean, status := "live",
        score := min (pyRound2 (conf * 100 + scoreBonus meta clean)) 100,
        tier := tierOf (min (pyRound2 (conf * 100 + scoreBonus meta clean)) 100),
        details := { meta := some meta, error := none } } := by
  simp only [validate_url, hn, hf]
  norm_num [tierOf]

theorem scoreBonus_nonneg (meta : PageMeta) (clean : String) :
    0 ≤ scoreBonus meta clean := by
  unfold scoreBonus
  split_ifs <;> norm_num

/-! ## Concrete score computations -/

theorem noSignalBonus_http_h_a :
    scoreBonus { author := none, date := none, has_references := false } "http://h/a" = 0 := by
  unfold scoreBonus
  rw [show pyTruthy none = false from rfl]
  rw [show isEduGov (rawUrlparse "http://h/a".toList).netloc = false from rfl]
  norm_num

theorem pyRound2_example_0111 : pyRound2 ((111 : ℚ)/1000) = 11/100 := by
  unfold pyRound2
  rw [show (111 : ℚ)/1000 * 100 = 111/10 by norm_num]
  rw [show pyRoundHalfEven ((111 : ℚ)/10) = 11 by
    norm_num [pyRoundHalfEven, ratFloor_eq_floor]]
  norm_num

theorem pyRound2_example_101011 : pyRound2 ((10101 : ℚ)/1000) = 101/10 := by
  unfold pyRound2
  rw [show (10101 : ℚ)/1000 * 100 = 10101/10 by norm_num]
  rw [show pyRoundHalfEven ((10101 : ℚ)/10) = 1010 by
    norm_num [pyRoundHalfEven, ratFloor_eq_floor]]
  norm_num

theorem pyRound2_example_101021 : pyRound2 ((10102 : ℚ)/1000) = 101/10 := by
  unfold pyRound2
  rw [show (10102 : ℚ)/1000 * 100 = 5051/5 by norm_num]
  rw [show pyRoundHalfEven ((5051 : ℚ)/5) = 1010 by
    norm_num [pyRoundHalfEven, ratFloor_eq_floor]]
  norm_num

/-- Claim C3, counterexample: for a reachable HTTP-200 record with no
author, date or trusted-suffix signal and provider confidence
0.00111, the code computes score 0.11 (the sum is rounded to two
decimal places by `round(final_score, 2)`), while the spec formula
(`confidence * 100` plus bonuses, clamped, with no rounding) yields
0.111 — so the computed score does not equal the spec formula value. -/
theorem c3_score_rounding_counterexample :
    validate_url (fun _ => FetchOutcome.response 200 (PageOutcome.parsed
        { author := none, date := none, has_references := false }))
      "http://h/a" (111/100000) =
      Except.ok
        { url := "http://h/a", status := "live", score := 11/100, tier := "B",
          details := { meta := some { author := none, date := none, has_references := false }, error := none } } ∧
    specScore (111/100000) false false false = 111/1000 ∧
    (11 : ℚ)/100 ≠ 111/1000 := by
  refine ⟨?_, by norm_num [specScore], by norm_num⟩
  rw [validate_url_live _ "http://h/a" "http://h/a" _ _ rfl rfl]
  rw [noSignalBonus_http_h_a]
  rw [show (111 : ℚ)/100000 * 100 + 0 = 111/1000 by norm_num]
  rw [pyRound2_example_0111]
  rw [show min ((11 : ℚ)/100) 100 = 11/100 by norm_num]
  norm_num [tierOf]

/-- Claim C3 (amended): for every record whose URL normalizes
successfully and whose page is reachable with HTTP 200 and parseable,
the computed score equals the sum `confidence * 100` plus 10 for an
author signal, plus 5 for a date signal, plus 15 when the parsed
netloc ends in `.edu`/`.gov`, rounded to two decimal places (half to
even) and clamped above at 100; for confidence in the unit interval the
result lies in the interval from 0 to 100, and it is deterministic (the
model is a pure function of the record and the fetch outcome). -/
theorem c3_score_formula (fetch : String → FetchOutcome) (url clean : String)
    (conf : ℚ) (meta : PageMeta)
    (h0 : 0 ≤ conf) (h1 : conf ≤ 1)
    (hn : normalize_url url = Except.ok clean)
    (hf : fetch clean = FetchOutcome.response 200 (PageOutcome.parsed meta)) :
    (validate_url fetch url conf).map ValidationResult.score =
      Except.ok (min (pyRound2 (conf * 100 + scoreBonus meta clean)) 100) ∧
    0 ≤ min (pyRound2 (conf * 100 + scoreBonus meta clean)) 100 ∧
    min (pyRound2 (conf * 100 + scoreBonus meta clean)) 100 ≤ 100 ∧
    (validate_url fetch url conf).map ValidationResult.status = Except.ok "live" := by
  have hv := validate_url_live fetch url clean conf meta hn hf
  refine ⟨by rw [hv]; rfl, ?_, min_le_right _ _, by rw [hv]; rfl⟩
  have hnn : 0 ≤ conf * 100 + scoreBonus meta clean := by
    have hb := scoreBonus_nonneg meta clean
    nlinarith
  exact le_min (pyRound2_nonneg hnn) (by norm_num)

/-- Witness for C3 (amended) at confidence 0.8 with an author signal
on a live page. -/
theorem c3_score_formula_witness :
    (0 : ℚ) ≤ 4/5 ∧ (4 : ℚ)/5 ≤ 1 ∧
    normalize_url "http://h/a" = Except.ok "http://h/a" ∧
    ((validate_url (fun _ => FetchOutcome.response 200 (PageOutcome.parsed
        { author := some "T", date := none, has_references := false }))
        "http://h/a" (4/5)).map ValidationResult.score =
      Except.ok (min (pyRound2 ((4 : ℚ)/5 * 100 + scoreBonus
        { author := some "T", date := none, has_references := false } "http://h/a")) 100) ∧
     0 ≤ min (pyRound2 ((4 : ℚ)/5 * 100 + scoreBonus
        { author := some "T", date := none, has_references := false } "http://h/a")) 100 ∧
     min (pyRound2 ((4 : ℚ)/5 * 100 + scoreBonus
        { author := some "T", date := none, has_references := false } "http://h/a")) 100 ≤ 100 ∧
     (validate_url (fun _ => FetchOutcome.response 200 (PageOutcome.parsed
        { author := some "T", date := none, has_references := false }))
        "http://h/a" (4/5)).map ValidationResult.status = Except.ok "live") :=
  ⟨by norm_num, by norm_num, rfl,
   c3_score_formula _ "http://h/a" "http://h/a" (4/5) _ (by norm_num) (by norm_num) rfl rfl⟩

/-- Claim C4, counterexample: a URL that is reachable with HTTP 200 but
whose HTML parsing raises is a validated record with computed score 0
and status `live`, yet its tier is `C` — while the claim requires every
score below 60 on a validated record that is not unreachable/non-2xx to
yield tier `B`. -/
theorem c4_tier_counterexample :
    validate_url (fun _ => FetchOutcome.response 200 (PageOutcome.parseFailure "bad html"))
      "http://h/a" (9/10) = Except.ok
      { url := "http://h/a", status := "live", score := 0, tier := "C",
        details := { meta := none, error := some "bad html" } } ∧
    (0 : ℚ) < 60 ∧ ("C" : String) ≠ "B" :=
  ⟨validate_url_parseFailure _ "http://h/a" "http://h/a" (9/10) "bad html" rfl rfl,
   by norm_num, by decide⟩

/-- Claim C4 (amended): for every validated record, on the fully
scored path (reachable, HTTP 200, parseable page) a computed score of
at least 80 yields tier S, at least 60 and below 80 yields tier A, and
any lower score yields tier B (in particular score 80 gives S, 79.99
gives A, 60 gives A, 59.99 gives B); every URL whose fetch raises or
returns a non-200 status is assigned status `dead` and tier `C` with
score 0 regardless of confidence; and a reachable HTTP-200 URL whose
HTML parsing raises is assigned status `live`, score 0 and tier `C`
(not `B`). -/
theorem c4_tier_assignment (fetch : String → FetchOutcome) (url clean : String)
    (conf : ℚ) (hn : normalize_url url = Except.ok clean) :
    (∀ msg, fetch clean = FetchOutcome.failure msg →
      validate_url fetch url conf = Except.ok
        { url := clean, status := "dead", score := 0, tier := "C",
          details := { meta := none, error := some msg } }) ∧
    (∀ code body, fetch clean = FetchOutcome.response code body → code ≠ 200 →
      validate_url fetch url conf = Except.ok
        { url := clean, status := "dead", score := 0, tier := "C",
          details := { meta := none, error := some ("Status " ++ toString code) } }) ∧
    (∀ msg, fetch clean = FetchOutcome.response 200 (PageOutcome.parseFailure msg) →
      validate_url fetch url conf = Except.ok
        { url := clean, status := "live", score := 0, tier := "C",
          details := { meta := none, error := some msg } }) ∧
    (∀ meta r, fetch clean = FetchOutcome.response 200 (PageOutcome.parsed meta) →
      validate_url fetch url conf = Except.ok r →
      (80 ≤ r.score → r.tier = "S") ∧
      (60 ≤ r.score → r.score < 80 → r.tier = "A") ∧
      (r.score < 60 → r.tier = "B")) ∧
    (tierOf 80 = "S" ∧ tierOf (7999/100) = "A" ∧ tierOf 60 = "A" ∧
      tierOf (5999/100) = "B") := by
  refine ⟨?_, ?_, ?_, ?_, by norm_num [tierOf], by norm_num [tierOf],
    by norm_num [tierOf], by norm_num [tierOf]⟩
  · intro msg hf
    exact validate_url_fetchFailure fetch url clean conf msg hn hf
  · intro code body hf hcode
    exact validate_url_non200 fetch url clean conf code body hn hf hcode
  · intro msg hf
    exact validate_url_parseFailure fetch url clean conf msg hn hf
  · intro meta r hf hr
    rw [validate_url_live fetch url clean conf meta hn hf] at hr
    injection hr with hrr
    subst hrr
    refine ⟨?_, ?_, ?_⟩
    · intro h
      show tierOf _ = "S"
      unfold tierOf
      rw [if_pos h]
    · intro h60 h80
      show tierOf _ = "A"
      unfold tierOf
      rw [if_neg (by linarith), if_pos h60]
    · intro h60
      show tierOf _ = "B"
      unfold tierOf
      rw [if_neg (by linarith), if_neg (by linarith)]

/-- Witness for C4 (amended): a 404 response is recorded dead with
tier C, and the boundary tiers evaluate as stated. -/
theorem c4_tier_assignment_witness :
    normalize_url "http://h/a" = Except.ok "http://h/a" ∧
    validate_url (fun _ => FetchOutcome.response 404 (PageOutcome.parseFailure "x"))
      "http://h/a" (4/5) = Except.ok
      { url := "http://h/a", status := "dead", score := 0, tier := "C",
        details := { meta := none, error := some ("Status " ++ toString 404) } } ∧
    (tierOf 80 = "S" ∧ tierOf (7999/100) = "A" ∧ tierOf 60 = "A" ∧
      tierOf (5999/100) = "B") :=
  ⟨rfl,
   (c4_tier_assignment (fun _ => FetchOutcome.response 404 (PageOutcome.parseFailure "x"))
      "http://h/a" "http://h/a" (4/5) rfl).2.1 404 (PageOutcome.parseFailure "x") rfl
      (by decide),
   (c4_tier_assignment (fun _ => FetchOutcome.response 404 (PageOutcome.parseFailure "x"))
      "http://h/a" "http://h/a" (4/5) rfl).2.2.2.2⟩

/-- Claim C7, counterexample: confidences 0.10101 and 0.10102 on the
same live record with no other signals both yield computed score 10.1
(the difference disappears in the rounding to two decimal places), so
the larger confidence does not yield a strictly greater score even
though neither score is clamped at 100. -/
theorem c7_monotonicity_counterexample :
    (10101 : ℚ)/100000 < 10102/100000 ∧
    (validate_url (fun _ => FetchOutcome.response 200 (PageOutcome.parsed
        { author := none, date := none, has_references := false }))
      "http://h/a" (10101/100000)).map ValidationResult.score = Except.ok (101/10) ∧
    (validate_url (fun _ => FetchOutcome.response 200 (PageOutcome.parsed
        { author := none, date := none, has_references := false }))
      "http://h/a" (10102/100000)).map ValidationResult.score = Except.ok (101/10) ∧
    (101 : ℚ)/10 < 100 := by
  refine ⟨by norm_num, ?_, ?_, by norm_num⟩
  · rw [validate_url_live _ "http://h/a" "http://h/a" _ _ rfl rfl]
    rw [noSignalBonus_http_h_a]
    rw [show (10101 : ℚ)/100000 * 100 + 0 = 10101/1000 by norm_num]
    rw [pyRound2_example_101011]
    rw [show min ((101 : ℚ)/10) 100 = 101/10 by norm_num]
    rfl
  · rw [validate_url_live _ "http://h/a" "http://h/a" _ _ rfl rfl]
    rw [noSignalBonus_http_h_a]
    rw [show (10102 : ℚ)/100000 * 100 + 0 = 10102/1000 by norm_num]
    rw [pyRound2_example_101021]
    rw [show min ((101 : ℚ)/10) 100 = 101/10 by norm_num]
    rfl

/-- Claim C7 (amended): on the same live, parseable record with all
other signals fixed, the computed score is monotone (non-strictly) in
the provider confidence; the increase is strict whenever the
confidence gap exceeds 0.0001 (so that it survives the rounding to two
decimal places) and the smaller score is below the clamp at 100. -/
theorem c7_score_monotonicity (fetch : String → FetchOutcome) (url clean : String)
    (conf1 conf2 : ℚ) (meta : PageMeta)
    (hn : normalize_url url = Except.ok clean)
    (hf : fetch clean = FetchOutcome.response 200 (PageOutcome.parsed meta))
    (hle : conf1 ≤ conf2) :
    (validate_url fetch url conf1).map ValidationResult.score =
      Except.ok (min (pyRound2 (conf1 * 100 + scoreBonus meta clean)) 100) ∧
    (validate_url fetch url conf2).map ValidationResult.score =
      Except.ok (min (pyRound2 (conf2 * 100 + scoreBonus meta clean)) 100) ∧
    min (pyRound2 (conf1 * 100 + scoreBonus meta clean)) 100 ≤
      min (pyRound2 (conf2 * 100 + scoreBonus meta clean)) 100 ∧
    (1/10000 < conf2 - conf1 →
      min (pyRound2 (conf1 * 100 + scoreBonus meta clean)) 100 < 100 →
      min (pyRound2 (conf1 * 100 + scoreBonus meta clean)) 100 <
        min (pyRound2 (conf2 * 100 + scoreBonus meta clean)) 100) := by
  refine ⟨by rw [validate_url_live fetch url clean conf1 meta hn hf]; rfl,
          by rw [validate_url_live fetch url clean conf2 meta hn hf]; rfl,
          min_le_min (pyRound2_mono (by linarith)) le_rfl, ?_⟩
  intro hgap hlt
  have hp : pyRound2 (conf1 * 100 + scoreBonus meta clean) <
      pyRound2 (conf2 * 100 + scoreBonus meta clean) :=
    pyRound2_strict (by linarith)
  have h1 : pyRound2 (conf1 * 100 + scoreBonus meta clean) < 100 := by
    rcases min_lt_iff.mp hlt with h | h
    · exact h
    · exact absurd h (lt_irrefl _)
  rw [min_eq_left (le_of_lt h1)]
  exact lt_min hp h1

/-- Witness for C7 (amended): confidences 0.5 and 0.75 on the same
live signal-free record. -/
theorem c7_score_monotonicity_witness :
    normalize_url "http://h/a" = Except.ok "http://h/a" ∧
    (1 : ℚ)/2 ≤ 3/4 ∧ (1 : ℚ)/10000 < 3/4 - 1/2 ∧
    ((validate_url (fun _ => FetchOutcome.response 200 (PageOutcome.parsed
        { author := none, date := none, has_references := false }))
      "http://h/a" (1/2)).map ValidationResult.score =
      Except.ok (min (pyRound2 ((1 : ℚ)/2 * 100 + scoreBonus
        { author := none, date := none, has_references := false } "http://h/a")) 100) ∧
     (validate_url (fun _ => FetchOutcome.response 200 (PageOutcome.parsed
        { author := none, date := none, has_references := false }))
      "http://h/a" (3/4)).map ValidationResult.score =
      Except.ok (min (pyRound2 ((3 : ℚ)/4 * 100 + scoreBonus
        { author := none, date := none, has_references := false } "http://h/a")) 100) ∧
     min (pyRound2 ((1 : ℚ)/2 * 100 + scoreBonus
        { author := none, date := none, has_references := false } "http://h/a")) 100 ≤
      min (pyRound2 ((3 : ℚ)/4 * 100 + scoreBonus
        { author := none, date := none, has_references := false } "http://h/a")) 100 ∧
     ((1 : ℚ)/10000 < 3/4 - 1/2 →
      min (pyRound2 ((1 : ℚ)/2 * 100 + scoreBonus
        { author := none, date := none, has_references := false } "http://h/a")) 100 < 100 →
      min (pyRound2 ((1 : ℚ)/2 * 100 + scoreBonus
        { author := none, date := none, has_references := false } "http://h/a")) 100 <
      min (pyRound2 ((3 : ℚ)/4 * 100 + scoreBonus
        { author := none, date := none, has_references := false } "http://h/a")) 100)) :=
  ⟨rfl, by norm_num, by norm_num,
   c7_score_monotonicity _ "http://h/a" "http://h/a" (1/2) (3/4) _ rfl rfl (by norm_num)⟩

/-! ## Lemmas on the ranking loop -/

theorem validate_url_ok_of_normalize (fetch : String → FetchOutcome)
    (url clean : String) (conf : ℚ)
    (hn : normalize_url url = Except.ok clean) :
    ∃ v, validate_url fetch url conf = Except.ok v := by
  unfold validate_url
  rw [hn]
  exact ⟨_, rfl⟩

theorem augmentSources_ok (fetch : String → FetchOutcome) (raw : List RawSource)
    (hok : ∀ item ∈ raw, (normalize_url (item.url.getD "")).isOk = true) :
    ∃ aug : List RankedSource,
      augmentSources fetch raw = Except.ok aug ∧
      aug.length = raw.length ∧
      (∀ (i : Nat) (hi : i < raw.length) (hi2 : i < aug.length),
        (aug.get ⟨i, hi2⟩).item = raw.get ⟨i, hi⟩ ∧
        validate_url fetch ((raw.get ⟨i, hi⟩).url.getD "")
            ((raw.get ⟨i, hi⟩).score.getD (1/2)) =
          Except.ok (aug.get ⟨i, hi2⟩).validation) := by
  induction raw with
  | nil =>
    exact ⟨[], rfl, rfl, fun i hi _ => absurd hi (by simp)⟩
  | cons x xs ih =>
    have hx : (normalize_url (x.url.getD "")).isOk = true :=
      hok x (List.mem_cons_self x xs)
    obtain ⟨clean, hclean⟩ : ∃ c, normalize_url (x.url.getD "") = Except.ok c := by
      cases hnx : normalize_url (x.url.getD "") with
      | error e =>
        rw [hnx] at hx
        exact absurd hx (by simp [Except.isOk, Except.toBool])
      | ok c => exact ⟨c, rfl⟩
    obtain ⟨v, hv⟩ :=
      validate_url_ok_of_normalize fetch (x.url.getD "") clean (x.score.getD (1/2)) hclean
    obtain ⟨aug, haug, hlen, hidx⟩ :=
      ih (fun item hm => hok item (List.mem_cons_of_mem x hm))
    refine ⟨{ item := x, validation := v } :: aug, ?_, by simpa using hlen, ?_⟩
    · unfold augmentSources at haug ⊢
      rw [List.mapM_cons, hv, haug]
      rfl
    · intro i hi hi2
      cases i with
      | zero => exact ⟨rfl, hv⟩
      | succ j =>
        have hj : j < xs.length := by simpa using hi
        have hj2 : j < aug.length := by simpa using hi2
        simpa using hidx j hj hj2

/-- Claim C5, counterexample: a URL whose netloc has an unbalanced
IPv6 bracket makes `urlparse` raise ValueError inside `normalize_url`,
which `validate_url` calls before its `try` block, so the exception
escapes and `rank_sources` aborts the whole ranking — the first record
is validated but no ranked list is produced, refuting the claim that a
parse failure on one record cannot abort ranking of the others. -/
theorem c5_rank_abort_counterexample :
    rank_sources (fun _ => FetchOutcome.failure "conn")
      [{ url := some "http://a/", score := some (1/2) },
       { url := some "http://[::1", score := some (9/10) },
       { url := some "http://b/", score := some (1/2) }] =
      Except.error "Invalid IPv6 URL" := by
  rfl

/-- Claim C5 (amended): for every input list of raw records whose URLs
all normalize without a parse error, `rank_sources` returns exactly the
input records in augmented form (record `i` keeps its original keys and
gains the validation result of its own URL and confidence), sorted in
descending order of validation score, with records of equal score
keeping their input relative order; a network failure while fetching
one record does not abort the ranking — that record is recorded with
status `dead` and tier `C`.  (A URL-parse ValueError, by contrast,
aborts the whole ranking; see the counterexample.) -/
theorem c5_rank_sources_stable_sort (fetch : String → FetchOutcome)
    (raw : List RawSource)
    (hok : ∀ item ∈ raw, (normalize_url (item.url.getD "")).isOk = true) :
    ∃ aug : List RankedSource,
      augmentSources fetch raw = Except.ok aug ∧
      rank_sources fetch raw = Except.ok (aug.mergeSort byScoreDesc) ∧
      aug.length = raw.length ∧
      (∀ (i : Nat) (hi : i < raw.length) (hi2 : i < aug.length),
        (aug.get ⟨i, hi2⟩).item = raw.get ⟨i, hi⟩ ∧
        validate_url fetch ((raw.get ⟨i, hi⟩).url.getD "")
            ((raw.get ⟨i, hi⟩).score.getD (1/2)) =
          Except.ok (aug.get ⟨i, hi2⟩).validation ∧
        (∀ clean msg,
          normalize_url ((raw.get ⟨i, hi⟩).url.getD "") = Except.ok clean →
          fetch clean = FetchOutcome.failure msg →
          (aug.get ⟨i, hi2⟩).validation.status = "dead" ∧
          (aug.get ⟨i, hi2⟩).validation.tier = "C")) ∧
      List.Perm (aug.mergeSort byScoreDesc) aug ∧
      List.Pairwise (fun a b => b.validation.score ≤ a.validation.score)
        (aug.mergeSort byScoreDesc) ∧
      (∀ q : ℚ,
        (aug.mergeSort byScoreDesc).filter (fun r => r.validation.score = q) =
          aug.filter (fun r => r.validation.score = q)) := by
  obtain ⟨aug, haug, hlen, hidx⟩ := augmentSources_ok fetch raw hok
  have htrans : ∀ a b c : RankedSource,
      byScoreDesc a b → byScoreDesc b c → byScoreDesc a c := by
    intro a b c hab hbc
    simp only [byScoreDesc, decide_eq_true_eq] at hab hbc ⊢
    linarith
  have htot : ∀ a b : RankedSource, byScoreDesc a b || byScoreDesc b a := by
    intro a b
    simp only [byScoreDesc, Bool.or_eq_true, decide_eq_true_eq]
    exact le_total _ _
  refine ⟨aug, haug, ?_, hlen, ?_, List.mergeSort_perm aug byScoreDesc, ?_, ?_⟩
  · unfold rank_sources
    rw [haug]
    rfl
  · intro i hi hi2
    obtain ⟨h1, h2⟩ := hidx i hi hi2
    refine ⟨h1, h2, ?_⟩
    intro clean msg hn hf
    have hd := validate_url_fetchFailure fetch ((raw.get ⟨i, hi⟩).url.getD "")
      clean ((raw.get ⟨i, hi⟩).score.getD (1/2)) msg hn hf
    rw [h2] at hd
    injection hd with hd
    exact ⟨by rw [hd], by rw [hd]⟩
  · have hp := List.sorted_mergeSort htrans htot aug
    exact hp.imp (fun h => by simpa [byScoreDesc] using h)
  · intro q
    have hfil_sub : List.Sublist (aug.filter (fun r => r.validation.score = q)) aug :=
      List.filter_sublist aug
    have hpairf : (aug.filter (fun r => r.validation.score = q)).Pairwise
        (fun a b => byScoreDesc a b) := by
      apply List.pairwise_of_forall_mem_list
      intro a ha b hb
      have ha' : a.validation.score = q := by
        have := (List.mem_filter.mp ha).2
        simpa using this
      have hb' : b.validation.score = q := by
        have := (List.mem_filter.mp hb).2
        simpa using this
      simp [byScoreDesc, ha', hb']
    have hsub2 := List.sublist_mergeSort htrans htot hpairf hfil_sub
    have hperm : List.Perm
        ((aug.mergeSort byScoreDesc).filter (fun r => r.validation.score = q))
        (aug.filter (fun r => r.validation.score = q)) :=
      (List.mergeSort_perm aug byScoreDesc).filter _
    have hself : (aug.filter (fun r => r.validation.score = q)).filter
        (fun r => r.validation.score = q) =
        aug.filter (fun r => r.validation.score = q) := by
      rw [List.filter_eq_self]
      intro a ha
      exact (List.mem_filter.mp ha).2
    have hsub3 : List.Sublist (aug.filter (fun r => r.validation.score = q))
        ((aug.mergeSort byScoreDesc).filter (fun r => r.validation.score = q)) := by
      have := hsub2.filter (fun r => r.validation.score = q)
      rwa [hself] at this
    exact (hsub3.eq_of_length hperm.length_eq.symm).symm

/-- Witness for C5 (amended): three records, fetched through an oracle
that fails every request, so all three are recorded dead with score 0
and the stable sort keeps input order among the ties. -/
theorem c5_rank_sources_stable_sort_witness :
    (∀ item ∈ ([{ url := some "http://a/", score := some (1/2) },
        { url := some "http://b/", score := some (9/10) },
        { url := some "http://c/", score := none }] : List RawSource),
      (normalize_url (item.url.getD "")).isOk = true) ∧
    (∃ aug : List RankedSource,
      augmentSources (fun _ => FetchOutcome.failure "conn")
        [{ url := some "http://a/", score := some (1/2) },
         { url := some "http://b/", score := some (9/10) },
         { url := some "http://c/", score := none }] = Except.ok aug ∧
      rank_sources (fun _ => FetchOutcome.failure "conn")
        [{ url := some "http://a/", score := some (1/2) },
         { url := some "http://b/", score := some (9/10) },
         { url := some "http://c/", score := none }] =
        Except.ok (aug.mergeSort byScoreDesc) ∧
      aug.length = ([{ url := some "http://a/", score := some (1/2) },
         { url := some "http://b/", score := some (9/10) },
         { url := some "http://c/", score := none }] : List RawSource).length ∧
      (∀ (i : Nat)
        (hi : i < ([{ url := some "http://a/", score := some (1/2) },
           { url := some "http://b/", score := some (9/10) },
           { url := some "http://c/", score := none }] : List RawSource).length)
        (hi2 : i < aug.length),
        (aug.get ⟨i, hi2⟩).item = ([{ url := some "http://a/", score := some (1/2) },
           { url := some "http://b/", score := some (9/10) },
           { url := some "http://c/", score := none }] : List RawSource).get ⟨i, hi⟩ ∧
        validate_url (fun _ => FetchOutcome.failure "conn")
            ((([{ url := some "http://a/", score := some (1/2) },
               { url := some "http://b/", score := some (9/10) },
               { url := some "http://c/", score := none }] :
                List RawSource).get ⟨i, hi⟩).url.getD "")
            ((([{ url := some "http://a/", score := some (1/2) },
               { url := some "http://b/", score := some (9/10) },
               { url := some "http://c/", score := none }] :
                List RawSource).get ⟨i, hi⟩).score.getD (1/2)) =
          Except.ok (aug.get ⟨i, hi2⟩).validation ∧
        (∀ clean msg,
          normalize_url ((([{ url := some "http://a/", score := some (1/2) },
             { url := some "http://b/", score := some (9/10) },
             { url := some "http://c/", score := none }] :
              List RawSource).get ⟨i, hi⟩).url.getD "") = Except.ok clean →
          (fun _ => FetchOutcome.failure "conn") clean = FetchOutcome.failure msg →
          (aug.get ⟨i, hi2⟩).validation.status = "dead" ∧
          (aug.get ⟨i, hi2⟩).validation.tier = "C")) ∧
      List.Perm (aug.mergeSort byScoreDesc) aug ∧
      List.Pairwise (fun a b => b.validation.score ≤ a.validation.score)
        (aug.mergeSort byScoreDesc) ∧
      (∀ q : ℚ,
        (aug.mergeSort byScoreDesc).filter (fun r => r.validation.score = q) =
          aug.filter (fun r => r.validation.score = q))) :=
  ⟨by decide,
   c5_rank_sources_stable_sort (fun _ => FetchOutcome.failure "conn")
     [{ url := some "http://a/", score := some (1/2) },
      { url := some "http://b/", score := some (9/10) },
      { url := some "http://c/", score := none }] (by decide)⟩

/-! ## Character lemmas for the URL round trip -/

theorem char_toNat_ofNat_valid {n : Nat} (h : n < 55296) : (Char.ofNat n).toNat = n := by
  rw [Char.ofNat, dif_pos (Or.inl (by omega))]
  rfl

theorem char_eq_iff_toNat {a b : Char} : a = b ↔ a.toNat = b.toNat := by
  constructor
  · intro h; rw [h]
  · intro h
    rw [← Char.ofNat_toNat a, ← Char.ofNat_toNat b, h]

theorem char_le_iff_toNat {a b : Char} : a ≤ b ↔ a.toNat ≤ b.toNat := by
  rw [Char.le_def, UInt32.le_def, BitVec.le_def]
  rfl

theorem isUpper_iff_toNat (c : Char) :
    c.isUpper = true ↔ 65 ≤ c.toNat ∧ c.toNat ≤ 90 := by
  simp only [Char.isUpper, Bool.and_eq_true, decide_eq_true_eq, ge_iff_le]
  rw [show ((65 : UInt32) ≤ c.val ↔ 65 ≤ c.toNat) from by
        rw [UInt32.le_def, BitVec.le_def]; rfl,
      show (c.val ≤ (90 : UInt32) ↔ c.toNat ≤ 90) from by
        rw [UInt32.le_def, BitVec.le_def]; rfl]

theorem isLower_iff_toNat (c : Char) :
    c.isLower = true ↔ 97 ≤ c.toNat ∧ c.toNat ≤ 122 := by
  simp only [Char.isLower, Bool.and_eq_true, decide_eq_true_eq, ge_iff_le]
  rw [show ((97 : UInt32) ≤ c.val ↔ 97 ≤ c.toNat) from by
        rw [UInt32.le_def, BitVec.le_def]; rfl,
      show (c.val ≤ (122 : UInt32) ↔ c.toNat ≤ 122) from by
        rw [UInt32.le_def, BitVec.le_def]; rfl]

theorem isDigit_iff_toNat (c : Char) :
    c.isDigit = true ↔ 48 ≤ c.toNat ∧ c.toNat ≤ 57 := by
  simp only [Char.isDigit, Bool.and_eq_true, decide_eq_true_eq, ge_iff_le]
  rw [show ((48 : UInt32) ≤ c.val ↔ 48 ≤ c.toNat) from by
        rw [UInt32.le_def, BitVec.le_def]; rfl,
      show (c.val ≤ (57 : UInt32) ↔ c.toNat ≤ 57) from by
        rw [UInt32.le_def, BitVec.le_def]; rfl]

theorem isAlpha_iff_toNat (c : Char) :
    c.isAlpha = true ↔ (65 ≤ c.toNat ∧ c.toNat ≤ 90) ∨ (97 ≤ c.toNat ∧ c.toNat ≤ 122) := by
  simp only [Char.isAlpha, Bool.or_eq_true, isUpper_iff_toNat, isLower_iff_toNat]

theorem isSchemeChar_iff_toNat (c : Char) :
    isSchemeChar c = true ↔
      (48 ≤ c.toNat ∧ c.toNat ≤ 57) ∨ (65 ≤ c.toNat ∧ c.toNat ≤ 90) ∨
      (97 ≤ c.toNat ∧ c.toNat ≤ 122) ∨ c.toNat = 43 ∨ c.toNat = 45 ∨ c.toNat = 46 := by
  simp only [isSchemeChar, Char.isAlphanum, Bool.or_eq_true, isAlpha_iff_toNat,
    isDigit_iff_toNat, decide_eq_true_eq, char_eq_iff_toNat]
  rw [show ('+').toNat = 43 from rfl, show ('-').toNat = 45 from rfl,
    show ('.').toNat = 46 from rfl]
  omega

theorem isUnsafeByte_iff_toNat (c : Char) :
    isUnsafeByte c = true ↔ c.toNat = 9 ∨ c.toNat = 13 ∨ c.toNat = 10 := by
  simp only [isUnsafeByte, Bool.or_eq_true, decide_eq_true_eq, char_eq_iff_toNat]
  rw [show ('\t').toNat = 9 from rfl, show ('\r').toNat = 13 from rfl,
    show ('\n').toNat = 10 from rfl]
  omega

theorem isC0OrSpace_iff_toNat (c : Char) :
    isC0OrSpace c = true ↔ c.toNat ≤ 32 := by
  simp [isC0OrSpace]

theorem toLower_toNat (c : Char) :
    (Char.toLower c).toNat =
      if 65 ≤ c.toNat ∧ c.toNat ≤ 90 then c.toNat + 32 else c.toNat := by
  rw [Char.toLower]
  simp only [ge_iff_le]
  split_ifs with h
  · exact char_toNat_ofNat_valid (by omega)
  · rfl

theorem toLower_isAlpha {c : Char} (h : c.isAlpha = true) :
    (Char.toLower c).isAlpha = true := by
  rw [isAlpha_iff_toNat] at h ⊢
  rw [toLower_toNat]
  split_ifs with hc <;> omega

theorem toLower_isSchemeChar {c : Char} (h : isSchemeChar c = true) :
    isSchemeChar (Char.toLower c) = true := by
  rw [isSchemeChar_iff_toNat] at h ⊢
  rw [toLower_toNat]
  split_ifs with hc <;> omega

theorem toLower_idem (c : Char) : Char.toLower (Char.toLower c) = Char.toLower c := by
  rw [char_eq_iff_toNat, toLower_toNat, toLower_toNat]
  split_ifs <;> omega

theorem ne_colon_of_isAlpha {c : Char} (h : c.isAlpha = true) : c ≠ ':' := by
  intro hc
  rw [isAlpha_iff_toNat, hc, show (':').toNat = 58 from rfl] at h
  omega

theorem ne_colon_of_isSchemeChar {c : Char} (h : isSchemeChar c = true) : c ≠ ':' := by
  intro hc
  rw [isSchemeChar_iff_toNat, hc, show (':').toNat = 58 from rfl] at h
  omega

theorem not_unsafe_of_isAlpha {c : Char} (h : c.isAlpha = true) :
    isUnsafeByte c = false := by
  rw [isAlpha_iff_toNat] at h
  cases hu : isUnsafeByte c with
  | false => rfl
  | true => rw [isUnsafeByte_iff_toNat] at hu; omega

theorem not_unsafe_of_isSchemeChar {c : Char} (h : isSchemeChar c = true) :
    isUnsafeByte c = false := by
  rw [isSchemeChar_iff_toNat] at h
  cases hu : isUnsafeByte c with
  | false => rfl
  | true => rw [isUnsafeByte_iff_toNat] at hu; omega

theorem not_c0_of_isAlpha {c : Char} (h : c.isAlpha = true) :
    isC0OrSpace c = false := by
  rw [isAlpha_iff_toNat] at h
  cases hu : isC0OrSpace c with
  | false => rfl
  | true => rw [isC0OrSpace_iff_toNat] at hu; omega

/-! ## Splitting lemmas -/

theorem splitAtFirst_char_none {sep : Char} {l : List Char} (h : sep ∉ l) :
    splitAtFirst (fun c => c = sep) l = none := by
  induction l with
  | nil => rfl
  | cons x xs ih =>
    have hx : ¬(x = sep) := fun he => h (he ▸ List.mem_cons_self x xs)
    have ih' := ih (fun hm => h (List.mem_cons_of_mem x hm))
    simp [splitAtFirst, hx, ih']

theorem splitAtFirst_char_append {sep : Char} {a : List Char} (ha : sep ∉ a)
    (b : List Char) :
    splitAtFirst (fun c => c = sep) (a ++ sep :: b) = some (a, b) := by
  induction a with
  | nil => simp [splitAtFirst]
  | cons x xs ih =>
    have hx : ¬(x = sep) := fun he => ha (he ▸ List.mem_cons_self x xs)
    have ih' := ih (fun hm => ha (List.mem_cons_of_mem x hm))
    simp [splitAtFirst, hx, ih']

theorem splitAtFirst_none_not_mem {sep : Char} :
    ∀ {l : List Char}, splitAtFirst (fun c => c = sep) l = none → sep ∉ l
  | [], _ => by simp
  | x :: xs, h => by
    by_cases hx : x = sep
    · rw [splitAtFirst] at h
      simp [hx] at h
    · rw [splitAtFirst, if_neg (by simpa using hx)] at h
      cases hs : splitAtFirst (fun c => c = sep) xs with
      | none =>
        have := splitAtFirst_none_not_mem hs
        intro hm
        rcases List.mem_cons.mp hm with he | hm2
        · exact hx he.symm
        · exact this hm2
      | some ab => rw [hs] at h; exact absurd h (by simp)

theorem splitAtFirst_eq_some_parts {p : Char → Bool} :
    ∀ {l : List Char} {a b : List Char}, splitAtFirst p l = some (a, b) →
      ∃ c, p c = true ∧ l = a ++ c :: b ∧ ∀ x ∈ a, p x = false
  | [], a, b, h => by simp [splitAtFirst] at h
  | x :: xs, a, b, h => by
    by_cases hp : p x
    · rw [splitAtFirst, if_pos hp] at h
      injection h with h
      injection h with h1 h2
      subst h1; subst h2
      exact ⟨x, hp, rfl, by simp⟩
    · rw [splitAtFirst, if_neg hp] at h
      cases hs : splitAtFirst p xs with
      | none => rw [hs] at h; exact absurd h (by simp)
      | some ab =>
        rw [hs] at h
        injection h with h
        cases h
        obtain ⟨c, hc, hxs, hall⟩ :=
          @splitAtFirst_eq_some_parts p xs ab.1 ab.2 (by rw [hs])
        refine ⟨c, hc, ?_, ?_⟩
        · simp [hxs]
        · intro y hy
          rcases List.mem_cons.mp hy with rfl | hy2
          · simpa using hp
          · exact hall y hy2

theorem splitAtFirstD_not_mem {sep : Char} {l : List Char} (h : sep ∉ l) :
    splitAtFirstD sep l = (l, []) := by
  unfold splitAtFirstD
  rw [splitAtFirst_char_none h]

theorem splitAtFirstD_append {sep : Char} {a : List Char} (ha : sep ∉ a)
    (b : List Char) : splitAtFirstD sep (a ++ sep :: b) = (a, b) := by
  unfold splitAtFirstD
  rw [splitAtFirst_char_append ha b]

theorem splitAtFirstD_fst_mem {sep : Char} {l : List Char} {c : Char}
    (h : c ∈ (splitAtFirstD sep l).1) : c ∈ l := by
  unfold splitAtFirstD at h
  cases hs : splitAtFirst (fun c => c = sep) l with
  | none => rw [hs] at h; exact h
  | some ab =>
    rw [hs] at h
    obtain ⟨d, _, hl, _⟩ :=
      @splitAtFirst_eq_some_parts (fun c => c = sep) l ab.1 ab.2 (by rw [hs])
    rw [hl]
    exact List.mem_append.mpr (Or.inl h)

theorem splitAtFirstD_fst_no_sep {sep : Char} (l : List Char) :
    sep ∉ (splitAtFirstD sep l).1 := by
  unfold splitAtFirstD
  cases hs : splitAtFirst (fun c => c = sep) l with
  | none => exact splitAtFirst_none_not_mem hs
  | some ab =>
    obtain ⟨d, hd, hl, hall⟩ :=
      @splitAtFirst_eq_some_parts (fun c => c = sep) l ab.1 ab.2 (by rw [hs])
    intro hm
    have := hall sep hm
    simp at this

theorem splitAtFirstD_fst_head (sep : Char) (l : List Char) :
    (splitAtFirstD sep l).1 = [] ∨ (splitAtFirstD sep l).1.take 1 = l.take 1 := by
  unfold splitAtFirstD
  cases hs : splitAtFirst (fun c => c = sep) l with
  | none => exact Or.inr rfl
  | some ab =>
    obtain ⟨d, hd, hl, hall⟩ :=
      @splitAtFirst_eq_some_parts (fun c => c = sep) l ab.1 ab.2 (by rw [hs])
    cases hab : ab.1 with
    | nil => exact Or.inl rfl
    | cons x xs =>
      right
      rw [hl, hab]
      rfl

theorem takeWhile_append_all {p : Char → Bool} {a : List Char}
    (ha : ∀ c ∈ a, p c = true) (b : List Char) :
    (a ++ b).takeWhile p = a ++ b.takeWhile p ∧ (a ++ b).dropWhile p = b.dropWhile p := by
  induction a with
  | nil => simp
  | cons x xs ih =>
    have hx := ha x (List.mem_cons_self x xs)
    have ih' := ih (fun c hc => ha c (List.mem_cons_of_mem x hc))
    constructor
    · simp [List.takeWhile_cons, hx, ih'.1]
    · simp [List.dropWhile_cons, hx, ih'.2]

theorem takeWhile_eq_nil_of_head {p : Char → Bool} {b : List Char}
    (hb : ∀ c ∈ b.take 1, p c = false) :
    b.takeWhile p = [] ∧ b.dropWhile p = b := by
  cases b with
  | nil => simp
  | cons x t =>
    have hx := hb x (by simp)
    constructor
    · simp [List.takeWhile_cons, hx]
    · simp [List.dropWhile_cons, hx]

theorem dropWhile_head_false (p : Char → Bool) (l : List Char) :
    l.dropWhile p = [] ∨ ∃ c t, l.dropWhile p = c :: t ∧ p c = false := by
  induction l with
  | nil => exact Or.inl rfl
  | cons x xs ih =>
    by_cases hx : p x
    · simpa [List.dropWhile_cons, hx] using ih
    · exact Or.inr ⟨x, xs, by simp [List.dropWhile_cons, hx], by simpa using hx⟩

theorem take_one_append {a : List Char} (ha : a ≠ []) (b : List Char) :
    (a ++ b).take 1 = a.take 1 := by
  cases a with
  | nil => exact absurd rfl ha
  | cons x xs => rfl

/-! ## Lemmas about the params split -/

theorem splitParamsPart_no_semi_no_slash {q : List Char} (h1 : ';' ∉ q)
    (h2 : '/' ∉ q) : splitParamsPart q = (q, []) := by
  unfold splitParamsPart
  rw [if_neg h2]
  unfold beforeFirstChar afterFirstChar
  rw [splitAtFirstD_not_mem h1, splitAtFirst_char_none h1]

theorem splitParamsPart_no_semi_tail {q : List Char} (h1 : '/' ∈ q)
    (h2 : ';' ∉ (q.reverse.takeWhile (fun c => c ≠ '/')).reverse) :
    splitParamsPart q = (q, []) := by
  unfold splitParamsPart
  rw [if_pos h1]
  simp only
  rw [if_neg h2]

theorem splitParamsPart_fst_mem {p : List Char} {c : Char}
    (h : c ∈ (splitParamsPart p).1) : c ∈ p := by
  unfold splitParamsPart at h
  by_cases hslash : '/' ∈ p
  · rw [if_pos hslash] at h
    simp only at h
    by_cases hsemi : ';' ∈ (p.reverse.takeWhile (fun c => c ≠ '/')).reverse
    · rw [if_pos hsemi] at h
      rcases List.mem_append.mp h with hm | hm
      · have : c ∈ p.reverse.dropWhile (fun c => c ≠ '/') := List.mem_reverse.mp hm
        have : c ∈ p.reverse := (List.dropWhile_sublist _).mem this
        exact List.mem_reverse.mp this
      · have : c ∈ (p.reverse.takeWhile (fun c => c ≠ '/')).reverse :=
          splitAtFirstD_fst_mem hm
        have : c ∈ p.reverse.takeWhile (fun c => c ≠ '/') := List.mem_reverse.mp this
        have : c ∈ p.reverse := (List.takeWhile_sublist _).mem this
        exact List.mem_reverse.mp this
    · rw [if_neg hsemi] at h
      exact h
  · rw [if_neg hslash] at h
    exact splitAtFirstD_fst_mem h

theorem splitParamsPart_fst_head {p : List Char}
    (hp : p = [] ∨ p.take 1 = ['/']) :
    (splitParamsPart p).1 = [] ∨ (splitParamsPart p).1.take 1 = ['/'] := by
  rcases hp with rfl | hp
  · left
    rfl
  · have hslash : '/' ∈ p := by
      cases p with
      | nil => simp at hp
      | cons x t =>
        have : x = '/' := by simpa using hp
        rw [this]
        exact List.mem_cons_self _ _
    unfold splitParamsPart
    rw [if_pos hslash]
    simp only
    by_cases hsemi : ';' ∈ (p.reverse.takeWhile (fun c => c ≠ '/')).reverse
    · rw [if_pos hsemi]
      right
      have hpre_ne : p.reverse.dropWhile (fun c => c ≠ '/') ≠ [] := by
        intro hnil
        have := List.dropWhile_eq_nil_iff.mp hnil '/' (by simpa using hslash)
        simp at this
      have hpre_ne' : (p.reverse.dropWhile (fun c => c ≠ '/')).reverse ≠ [] := by
        simpa using hpre_ne
      have h0 : p.reverse.takeWhile (fun c => c ≠ '/') ++
          p.reverse.dropWhile (fun c => c ≠ '/') = p.reverse :=
        List.takeWhile_append_dropWhile _ p.reverse
      have hdecomp : p = (p.reverse.dropWhile (fun c => c ≠ '/')).reverse ++
          (p.reverse.takeWhile (fun c => c ≠ '/')).reverse := by
        conv_lhs => rw [← List.reverse_reverse p, ← h0]
        rw [List.reverse_append]
      have hpre_head : ((p.reverse.dropWhile (fun c => c ≠ '/')).reverse).take 1 = ['/'] := by
        rw [hdecomp, take_one_append hpre_ne'] at hp
        exact hp
      rw [take_one_append hpre_ne']
      exact hpre_head
    · rw [if_neg hsemi]
      exact Or.inr hp

theorem splitParamsPart_normal (p : List Char) :
    splitParamsPart ((splitParamsPart p).1) = ((splitParamsPart p).1, []) := by
  by_cases hslash : '/' ∈ p
  · by_cases hsemi : ';' ∈ (p.reverse.takeWhile (fun c => c ≠ '/')).reverse
    · have hfst : (splitParamsPart p).1 =
          (p.reverse.dropWhile (fun c => c ≠ '/')).reverse ++
            beforeFirstChar ';' ((p.reverse.takeWhile (fun c => c ≠ '/')).reverse) := by
        unfold splitParamsPart
        rw [if_pos hslash]
        simp only
        rw [if_pos hsemi]
      rw [hfst]
      have hq_no_slash : ∀ c ∈ beforeFirstChar ';'
          ((p.reverse.takeWhile (fun c => c ≠ '/')).reverse), ¬(c = '/') := by
        intro c hc he
        have h1 : c ∈ (p.reverse.takeWhile (fun c => c ≠ '/')).reverse :=
          splitAtFirstD_fst_mem hc
        have h2 : c ∈ p.reverse.takeWhile (fun c => c ≠ '/') := List.mem_reverse.mp h1
        have := List.mem_takeWhile_imp h2
        rw [he] at this
        simp at this
      have hq_no_semi : ';' ∉ beforeFirstChar ';'
          ((p.reverse.takeWhile (fun c => c ≠ '/')).reverse) :=
        splitAtFirstD_fst_no_sep _
      have hpre_ne : p.reverse.dropWhile (fun c => c ≠ '/') ≠ [] := by
        intro hnil
        have := List.dropWhile_eq_nil_iff.mp hnil '/' (by simpa using hslash)
        simp at this
      obtain ⟨d, t, hdt, hd⟩ :
          ∃ d t, p.reverse.dropWhile (fun c => c ≠ '/') = d :: t ∧ d = '/' := by
        rcases dropWhile_head_false (fun c => c ≠ '/') p.reverse with hnil | ⟨d, t, hdt, hd⟩
        · exact absurd hnil hpre_ne
        · exact ⟨d, t, hdt, by simpa using hd⟩
      apply splitParamsPart_no_semi_tail
      · apply List.mem_append.mpr
        left
        apply List.mem_reverse.mpr
        rw [hdt, hd]
        exact List.mem_cons_self _ _
      · -- the last slash-free segment of the new path is exactly the kept piece
        have hrev : ((p.reverse.dropWhile (fun c => c ≠ '/')).reverse ++
            beforeFirstChar ';'
              ((p.reverse.takeWhile (fun c => c ≠ '/')).reverse)).reverse =
            (beforeFirstChar ';'
              ((p.reverse.takeWhile (fun c => c ≠ '/')).reverse)).reverse ++
              p.reverse.dropWhile (fun c => c ≠ '/') := by
          rw [List.reverse_append, List.reverse_reverse]
        rw [hrev]
        have hall : ∀ c ∈ (beforeFirstChar ';'
            ((p.reverse.takeWhile (fun c => c ≠ '/')).reverse)).reverse,
            (fun c => decide (c ≠ '/')) c = true := by
          intro c hc
          have := hq_no_slash c (List.mem_reverse.mp hc)
          simpa using this
        rw [(takeWhile_append_all hall (p.reverse.dropWhile (fun c => c ≠ '/'))).1]
        have hstop : (p.reverse.dropWhile (fun c => c ≠ '/')).takeWhile
            (fun c => decide (c ≠ '/')) = [] := by
          rw [hdt, hd]
          simp [List.takeWhile_cons]
        rw [hstop, List.append_nil, List.reverse_reverse]
        exact hq_no_semi
    · have hfst : (splitParamsPart p).1 = p := by
        unfold splitParamsPart
        rw [if_pos hslash]
        simp only
        rw [if_neg hsemi]
      rw [hfst]
      exact splitParamsPart_no_semi_tail hslash hsemi
  · have hfst : (splitParamsPart p).1 = beforeFirstChar ';' p := by
      unfold splitParamsPart
      rw [if_neg hslash]
    rw [hfst]
    apply splitParamsPart_no_semi_no_slash
    · exact splitAtFirstD_fst_no_sep p
    · intro hm
      exact hslash (splitAtFirstD_fst_mem hm)

/-! ## Invariants of the parse output -/

theorem stripUrl_not_unsafe {u : List Char} {c : Char} (h : c ∈ stripUrl u) :
    isUnsafeByte c = false := by
  unfold stripUrl at h
  have := (List.mem_filter.mp h).2
  simpa using this

theorem splitColonScheme_snd_mem {l : List Char} {c : Char}
    (h : c ∈ (splitColonScheme l).2) : c ∈ l := by
  unfold splitColonScheme at h
  split at h
  · exact h
  · exact h
  · rename_i x xs rest heq
    split at h
    · obtain ⟨d, hd, hl, hall⟩ :=
        @splitAtFirst_eq_some_parts (fun c => c = ':') l (x :: xs) rest heq
      rw [hl]
      exact List.mem_append.mpr (Or.inr (List.mem_cons_of_mem d h))
    · exact h

theorem splitColonScheme_shape (l : List Char) :
    (splitColonScheme l).1 = [] ∨
    ∃ hd tl, (splitColonScheme l).1 = hd :: tl ∧ hd.isAlpha = true ∧
      (∀ x ∈ tl, isSchemeChar x = true) ∧
      ((splitColonScheme l).1).map Char.toLower = (splitColonScheme l).1 ∧
      ':' ∉ (splitColonScheme l).1 := by
  unfold splitColonScheme
  split
  · exact Or.inl rfl
  · exact Or.inl rfl
  · rename_i x xs rest heq
    split
    · rename_i hv
      right
      obtain ⟨hva, hvs⟩ := Bool.and_eq_true_iff.mp hv
      have hxs : ∀ y ∈ xs, isSchemeChar y = true := by
        intro y hy
        exact List.all_eq_true.mp hvs y hy
      refine ⟨Char.toLower x, xs.map Char.toLower, by simp, toLower_isAlpha hva, ?_, ?_, ?_⟩
      · intro y hy
        obtain ⟨z, hz, hzy⟩ := List.mem_map.mp hy
        rw [← hzy]
        exact toLower_isSchemeChar (hxs z hz)
      · simp only [List.map_cons, List.map_map]
        rw [toLower_idem]
        congr 1
        apply List.map_congr_left
        intro z _
        exact toLower_idem z
      · intro hmem
        simp only [List.map_cons, List.mem_cons] at hmem
        rcases hmem with he | hmem
        · exact ne_colon_of_isAlpha (toLower_isAlpha hva) he.symm
        · obtain ⟨z, hz, hzy⟩ := List.mem_map.mp hmem
          exact ne_colon_of_isSchemeChar (toLower_isSchemeChar (hxs z hz)) hzy
    · exact Or.inl rfl

theorem splitNetlocPart_fst_facts {l : List Char} {c : Char}
    (h : c ∈ (splitNetlocPart l).1) : isNetlocEnd c = false ∧ c ∈ l := by
  unfold splitNetlocPart at h
  split_ifs at h with hsl
  · constructor
    · have := List.mem_takeWhile_imp h
      simpa using this
    · have h1 : c ∈ l.drop 2 := (List.takeWhile_sublist _).mem h
      exact List.mem_of_mem_drop h1
  · simp at h

theorem splitNetlocPart_snd_mem {l : List Char} {c : Char}
    (h : c ∈ (splitNetlocPart l).2) : c ∈ l := by
  unfold splitNetlocPart at h
  split_ifs at h with hsl
  · have h1 : c ∈ l.drop 2 := (List.dropWhile_sublist _).mem h
    exact List.mem_of_mem_drop h1
  · exact h

theorem splitNetlocPart_snd_head {l : List Char}
    (hn : (splitNetlocPart l).1 ≠ []) :
    (splitNetlocPart l).2 = [] ∨
    ∃ c t, (splitNetlocPart l).2 = c :: t ∧ isNetlocEnd c = true := by
  unfold splitNetlocPart at hn ⊢
  split_ifs with hsl
  · rcases dropWhile_head_false (fun c => !isNetlocEnd c) (l.drop 2) with hnil | ⟨c, t, hct, hc⟩
    · exact Or.inl hnil
    · exact Or.inr ⟨c, t, hct, by simpa using hc⟩
  · rw [if_neg hsl] at hn
    exact absurd rfl hn

theorem isNetlocEnd_true_iff (c : Char) :
    isNetlocEnd c = true ↔ c = '/' ∨ c = '?' ∨ c = '#' := by
  simp [isNetlocEnd, or_assoc]

theorem rawUrlparse_inv (u : List Char) (hn : (rawUrlparse u).netloc ≠ []) :
    ((rawUrlparse u).scheme = [] ∨
      ∃ hd tl, (rawUrlparse u).scheme = hd :: tl ∧ hd.isAlpha = true ∧
        (∀ x ∈ tl, isSchemeChar x = true) ∧
        (rawUrlparse u).scheme.map Char.toLower = (rawUrlparse u).scheme ∧
        ':' ∉ (rawUrlparse u).scheme) ∧
    (∀ c ∈ (rawUrlparse u).netloc, isNetlocEnd c = false) ∧
    (∀ c ∈ (rawUrlparse u).netloc, isUnsafeByte c = false) ∧
    (∀ c ∈ (rawUrlparse u).path, c ≠ '#' ∧ c ≠ '?' ∧ isUnsafeByte c = false) ∧
    splitParamsPart (rawUrlparse u).path = ((rawUrlparse u).path, []) ∧
    ((rawUrlparse u).path = [] ∨ (rawUrlparse u).path.take 1 = ['/']) := by
  have hsch : (rawUrlparse u).scheme = (splitColonScheme (stripUrl u)).1 := rfl
  have hnet : (rawUrlparse u).netloc =
      (splitNetlocPart (splitColonScheme (stripUrl u)).2).1 := rfl
  have hpath : (rawUrlparse u).path =
      (splitParamsPart (splitAtFirstD '?' (splitAtFirstD '#'
        (splitNetlocPart (splitColonScheme (stripUrl u)).2).2).1).1).1 := rfl
  refine ⟨?_, ?_, ?_, ?_, ?_, ?_⟩
  · rw [hsch]
    exact splitColonScheme_shape (stripUrl u)
  · intro c hc
    rw [hnet] at hc
    exact (splitNetlocPart_fst_facts hc).1
  · intro c hc
    rw [hnet] at hc
    have h1 : c ∈ (splitColonScheme (stripUrl u)).2 := (splitNetlocPart_fst_facts hc).2
    exact stripUrl_not_unsafe (splitColonScheme_snd_mem h1)
  · intro c hc
    rw [hpath] at hc
    have h1 : c ∈ (splitAtFirstD '?' (splitAtFirstD '#'
        (splitNetlocPart (splitColonScheme (stripUrl u)).2).2).1).1 :=
      splitParamsPart_fst_mem hc
    have h2 : c ∈ (splitAtFirstD '#'
        (splitNetlocPart (splitColonScheme (stripUrl u)).2).2).1 :=
      splitAtFirstD_fst_mem h1
    have h3 : c ∈ (splitNetlocPart (splitColonScheme (stripUrl u)).2).2 :=
      splitAtFirstD_fst_mem h2
    refine ⟨?_, ?_, ?_⟩
    · intro he
      rw [he] at h2
      exact splitAtFirstD_fst_no_sep _ h2
    · intro he
      rw [he] at h1
      exact splitAtFirstD_fst_no_sep _ h1
    · exact stripUrl_not_unsafe (splitColonScheme_snd_mem (splitNetlocPart_snd_mem h3))
  · rw [hpath]
    exact splitParamsPart_normal _
  · rw [hpath]
    apply splitParamsPart_fst_head
    rw [hnet] at hn
    rcases splitNetlocPart_snd_head hn with hnil | ⟨c, t, hct, hc⟩
    · rw [hnil]
      left
      rfl
    · rcases (isNetlocEnd_true_iff c).mp hc with rfl | rfl | rfl
      · -- head is a slash
        rcases splitAtFirstD_fst_head '#'
            (splitNetlocPart (splitColonScheme (stripUrl u)).2).2 with hb | hb
        · rw [hb]
          left
          rfl
        · rcases splitAtFirstD_fst_head '?' (splitAtFirstD '#'
              (splitNetlocPart (splitColonScheme (stripUrl u)).2).2).1 with hq | hq
          · exact Or.inl hq
          · right
            rw [hq, hb, hct]
            rfl
      · -- head is a question mark: the fragment-free part is empty or starts with it
        left
        rw [hct]
        rcases splitAtFirstD_fst_head '#' ('?' :: t) with hb | hb
        · rw [hb]
          rfl
        · cases hbf : (splitAtFirstD '#' ('?' :: t)).1 with
          | nil => rfl
          | cons y ys =>
            rw [hbf] at hb
            have hy : y = '?' := by simpa using hb
            rw [hy]
            simp [splitAtFirstD, splitAtFirst]
      · -- head is a number sign: the fragment split leaves nothing
        left
        rw [hct]
        have : (splitAtFirstD '#' ('#' :: t)).1 = [] := by
          simp [splitAtFirstD, splitAtFirst]
        rw [this]
        rfl

/-! ## The reparse of a reassembled URL -/

theorem splitNetlocPart_core {n p : List Char}
    (hn1 : ∀ c ∈ n, isNetlocEnd c = false)
    (hp3 : p = [] ∨ p.take 1 = ['/']) :
    splitNetlocPart ('/' :: '/' :: (n ++ p)) = (n, p) := by
  unfold splitNetlocPart
  rw [if_pos (show ('/' :: '/' :: (n ++ p)).take 2 = ['/', '/'] from rfl)]
  have ha : ∀ c ∈ n, (!isNetlocEnd c) = true := by
    intro c hc
    rw [hn1 c hc]
    rfl
  have hphead : ∀ c ∈ p.take 1, (!isNetlocEnd c) = false := by
    intro c hc
    rcases hp3 with rfl | hp3
    · simp at hc
    · rw [hp3] at hc
      have hcs : c = '/' := by simpa using hc
      rw [hcs]
      rfl
  have hsplit := takeWhile_append_all ha p
  have hnil := takeWhile_eq_nil_of_head hphead
  show ((n ++ p).takeWhile (fun c => !isNetlocEnd c),
        (n ++ p).dropWhile (fun c => !isNetlocEnd c)) = (n, p)
  rw [hsplit.1, hsplit.2, hnil.1, hnil.2, List.append_nil]

theorem dropWhile_c0_of_head {w : List Char}
    (hw : ∀ c ∈ w.take 1, isC0OrSpace c = false) :
    w.dropWhile isC0OrSpace = w :=
  (takeWhile_eq_nil_of_head hw).2

theorem rawUrlparse_unparse (s n p : List Char)
    (hs : s = [] ∨ ∃ hd tl, s = hd :: tl ∧ hd.isAlpha = true ∧
      (∀ x ∈ tl, isSchemeChar x = true) ∧ s.map Char.toLower = s ∧ ':' ∉ s)
    (hnn : n ≠ [])
    (hn1 : ∀ c ∈ n, isNetlocEnd c = false)
    (hn2 : ∀ c ∈ n, isUnsafeByte c = false)
    (hp1 : ∀ c ∈ p, c ≠ '#' ∧ c ≠ '?' ∧ isUnsafeByte c = false)
    (hp2 : splitParamsPart p = (p, []))
    (hp3 : p = [] ∨ p.take 1 = ['/']) :
    rawUrlparse (urlunsplitBase s n p) = ⟨s, n, p, [], [], []⟩ := by
  have hpfix : (if p ≠ [] ∧ p.take 1 ≠ ['/'] then '/' :: p else p) = p := by
    rcases hp3 with rfl | hp3
    · rw [if_neg]
      intro hcontra
      exact hcontra.1 rfl
    · rw [if_neg]
      intro hcontra
      exact hcontra.2 hp3
  have hcore_frag : splitAtFirstD '#' p = (p, []) :=
    splitAtFirstD_not_mem (fun hm => (hp1 '#' hm).1 rfl)
  have hcore_query : splitAtFirstD '?' p = (p, []) :=
    splitAtFirstD_not_mem (fun hm => (hp1 '?' hm).2.1 rfl)
  have hnetsplit := splitNetlocPart_core hn1 hp3
  have hcore_unsafe : ∀ a ∈ '/' :: '/' :: (n ++ p), (!isUnsafeByte a) = true := by
    intro a ha
    rcases List.mem_cons.mp ha with rfl | ha
    · rfl
    · rcases List.mem_cons.mp ha with rfl | ha
      · rfl
      · rcases List.mem_append.mp ha with ha | ha
        · rw [hn2 a ha]; rfl
        · rw [(hp1 a ha).2.2]; rfl
  rcases hs with rfl | ⟨hd, tl, hshape, hha, htl, hlow, hcol⟩
  · -- no scheme: the reassembled URL is the double slash, netloc and path
    have hw : urlunsplitBase [] n p = '/' :: '/' :: (n ++ p) := by
      unfold urlunsplitBase
      rw [if_pos (Or.inl hnn), hpfix, if_neg (by simp)]
    have hwhead : ∀ c ∈ ('/' :: '/' :: (n ++ p)).take 1, isC0OrSpace c = false := by
      intro c hc
      have hcs : c = '/' := by simpa using hc
      rw [hcs]
      rfl
    have hstrip : stripUrl ('/' :: '/' :: (n ++ p)) = '/' :: '/' :: (n ++ p) := by
      unfold stripUrl
      rw [dropWhile_c0_of_head hwhead, List.filter_eq_self.mpr hcore_unsafe]
    have hscheme : splitColonScheme ('/' :: '/' :: (n ++ p)) =
        ([], '/' :: '/' :: (n ++ p)) := by
      unfold splitColonScheme
      cases hsp : splitAtFirst (fun c => c = ':') ('/' :: '/' :: (n ++ p)) with
      | none => rfl
      | some ab =>
        obtain ⟨a, b⟩ := ab
        obtain ⟨d, hdc, hl, hall⟩ :=
          @splitAtFirst_eq_some_parts (fun c => c = ':')
            ('/' :: '/' :: (n ++ p)) a b (by rw [hsp])
        cases ha : a with
        | nil => rfl
        | cons x xs =>
          rw [ha] at hl
          have hx : x = '/' := ((List.cons.injEq _ _ _ _).mp hl.symm).1
          have hv : ¬ ((x.isAlpha && xs.all isSchemeChar) = true) := by
            rw [hx]
            simp [Char.isAlpha, Char.isUpper, Char.isLower]
          show (if (x.isAlpha && xs.all isSchemeChar) = true
              then (List.map Char.toLower (x :: xs), b)
              else ([], '/' :: '/' :: (n ++ p))) =
            ([], '/' :: '/' :: (n ++ p))
          rw [if_neg hv]
    rw [hw]
    unfold rawUrlparse
    dsimp only
    rw [hstrip, hscheme]
    dsimp only
    rw [hnetsplit]
    dsimp only
    rw [hcore_frag]
    dsimp only
    rw [hcore_query]
    dsimp only
    rw [hp2]
  · -- scheme present: the reassembled URL starts with the lowercased scheme
    have hw : urlunsplitBase s n p = s ++ ':' :: ('/' :: '/' :: (n ++ p)) := by
      unfold urlunsplitBase
      rw [if_pos (Or.inl hnn), hpfix, if_pos (by rw [hshape]; simp)]
    have hwhead : ∀ c ∈ (s ++ ':' :: ('/' :: '/' :: (n ++ p))).take 1,
        isC0OrSpace c = false := by
      intro c hc
      rw [hshape] at hc
      have hcs : c = hd := by simpa using hc
      rw [hcs]
      exact not_c0_of_isAlpha hha
    have hall_unsafe : ∀ a ∈ s ++ ':' :: ('/' :: '/' :: (n ++ p)),
        (!isUnsafeByte a) = true := by
      intro a ha
      rcases List.mem_append.mp ha with ha | ha
      · rw [hshape] at ha
        rcases List.mem_cons.mp ha with rfl | ha
        · rw [not_unsafe_of_isAlpha hha]; rfl
        · rw [not_unsafe_of_isSchemeChar (htl a ha)]; rfl
      · rcases List.mem_cons.mp ha with rfl | ha
        · rfl
        · exact hcore_unsafe a ha
    have hstrip : stripUrl (s ++ ':' :: ('/' :: '/' :: (n ++ p))) =
        s ++ ':' :: ('/' :: '/' :: (n ++ p)) := by
      unfold stripUrl
      rw [dropWhile_c0_of_head hwhead, List.filter_eq_self.mpr hall_unsafe]
    have hscheme : splitColonScheme (s ++ ':' :: ('/' :: '/' :: (n ++ p))) =
        (s, '/' :: '/' :: (n ++ p)) := by
      unfold splitColonScheme
      rw [splitAtFirst_char_append hcol]
      rw [hshape]
      have hv : (hd.isAlpha && tl.all isSchemeChar) = true := by
        rw [hha, List.all_eq_true.mpr (fun x hx => htl x hx)]
        rfl
      show (if (hd.isAlpha && tl.all isSchemeChar) = true
          then (List.map Char.toLower (hd :: tl), '/' :: '/' :: (n ++ p))
          else ([], (hd :: tl) ++ ':' :: ('/' :: '/' :: (n ++ p)))) =
        (hd :: tl, '/' :: '/' :: (n ++ p))
      rw [if_pos hv]
      rw [show List.map Char.toLower (hd :: tl) = hd :: tl from by
        rw [← hshape]; exact hlow]
    rw [hw]
    unfold rawUrlparse
    dsimp only
    rw [hstrip, hscheme]
    dsimp only
    rw [hnetsplit]
    dsimp only
    rw [hcore_frag]
    dsimp only
    rw [hcore_query]
    dsimp only
    rw [hp2]

theorem pyUrlparse_ok_inv {u : List Char} {r : ParseResult}
    (h : pyUrlparse u = Except.ok r) :
    r = rawUrlparse u ∧ netlocError (rawUrlparse u).netloc = none := by
  simp only [pyUrlparse] at h
  split at h
  · exact Except.noConfusion h
  · rename_i hne
    exact ⟨(Except.ok.inj h).symm, hne⟩

/-- **C6** (amended).  `normalize_url` is not idempotent on all URLs (see
the counterexample), but on every URL whose parse has a nonempty netloc
it is: the normalized form parses back to exactly the original scheme,
netloc and path with empty params, query and fragment (so the query
string and fragment are stripped and scheme, host and path preserved),
and normalizing again returns the same string. -/
theorem c6_normalize (u v : String)
    (h1 : normalize_url u = Except.ok v)
    (h2 : (rawUrlparse u.toList).netloc ≠ []) :
    pyUrlparse v.toList = Except.ok
      ⟨(rawUrlparse u.toList).scheme, (rawUrlparse u.toList).netloc,
       (rawUrlparse u.toList).path, [], [], []⟩ ∧
    normalize_url v = Except.ok v := by
  simp only [normalize_url] at h1
  split at h1
  · exact Except.noConfusion h1
  · rename_i p hp
    obtain ⟨hpr, hne⟩ := pyUrlparse_ok_inv hp
    subst hpr
    have hv : String.mk (urlunsplitBase (rawUrlparse u.toList).scheme
        (rawUrlparse u.toList).netloc (rawUrlparse u.toList).path) = v :=
      Except.ok.inj h1
    obtain ⟨hs, hn1, hn2, hp1, hp2, hp3⟩ := rawUrlparse_inv u.toList h2
    have hmain := rawUrlparse_unparse (rawUrlparse u.toList).scheme
      (rawUrlparse u.toList).netloc (rawUrlparse u.toList).path
      hs h2 hn1 hn2 hp1 hp2 hp3
    have hvl : v.toList = urlunsplitBase (rawUrlparse u.toList).scheme
        (rawUrlparse u.toList).netloc (rawUrlparse u.toList).path := by
      rw [← hv]
      rfl
    have hparse : rawUrlparse v.toList =
        ⟨(rawUrlparse u.toList).scheme, (rawUrlparse u.toList).netloc,
         (rawUrlparse u.toList).path, [], [], []⟩ := by
      rw [hvl]
      exact hmain
    have hok : pyUrlparse v.toList = Except.ok
        ⟨(rawUrlparse u.toList).scheme, (rawUrlparse u.toList).netloc,
         (rawUrlparse u.toList).path, [], [], []⟩ := by
      unfold pyUrlparse
      rw [hparse]
      dsimp only
      rw [hne]
    refine ⟨hok, ?_⟩
    unfold normalize_url
    rw [hok]
    dsimp only
    rw [hv]

/-- **C6**, counterexample to the literal claim: `normalize_url` is not
idempotent (and does not preserve the path) on a scheme-less URL whose
path begins with slashes: normalizing `//////x` gives `////x`, and
normalizing that gives `//x`, because `urlunparse` re-emits a double
slash in front of the empty netloc and the parse of the result absorbs
two more slashes of the path. -/
theorem c6_normalize_counterexample :
    normalize_url "//////x" = Except.ok "////x" ∧
    normalize_url "////x" = Except.ok "//x" ∧
    ("////x" : String) ≠ "//x" :=
  ⟨rfl, rfl, by decide⟩

/-- **C6**, witness: the repository's own example URL
(`https://example.com/article?utm_source=google&ref=123`) has a nonempty
netloc, normalizes to `https://example.com/article`, and the amended
theorem applies to it. -/
theorem c6_normalize_witness :
    pyUrlparse ("https://example.com/article" : String).toList = Except.ok
      ⟨(rawUrlparse ("https://example.com/article?utm_source=google&ref=123" : String).toList).scheme,
       (rawUrlparse ("https://example.com/article?utm_source=google&ref=123" : String).toList).netloc,
       (rawUrlparse ("https://example.com/article?utm_source=google&ref=123" : String).toList).path,
       [], [], []⟩ ∧
    normalize_url "https://example.com/article" = Except.ok "https://example.com/article" :=
  c6_normalize "https://example.com/article?utm_source=google&ref=123"
    "https://example.com/article" rfl (by decide)


end PptGen
